import Mathlib

/-!
Verification of the KeaBOT agent core against its specification.

This file gives a shallow embedding of the parts of the backend the
specification talks about:

* `app/tools/base.py`    — `ToolResult.to_observation`, `ToolRegistry.execute`
* `app/services/approval.py` — `ApprovalService`
* `app/skills/manager.py`    — `Skill`, `SkillManager` metadata / lazy loading
* `app/agent/llm.py`     — provider constructors (credential checks)
* `app/agent/core.py`    — `Agent.run` and `Agent.run_stream` (ReAct loop)

Python values that flow through tool results are modelled by `PyVal`;
machine-level aspects (network I/O, the filesystem, the human approver) are
modelled as explicit function parameters of the embedding.
-/

/-- Model of the Python values carried in tool results and tool-call
arguments: `None`, booleans, integers, strings, lists and string-keyed
dictionaries. -/
inductive PyVal where
  | pyNone
  | pyBool (b : Bool)
  | pyInt (n : Int)
  | pyStr (s : String)
  | pyList (xs : List PyVal)
  | pyDict (kvs : List (String × PyVal))

/-- Four lowercase hexadecimal digits of `n` (used for `\uXXXX` escapes). -/
def hexDigit (n : Nat) : Char :=
  if n < 10 then Char.ofNat (48 + n) else Char.ofNat (87 + n)

/-- `json.dumps` escaping of a single character (`ensure_ascii=False`). -/
def jsonEscapeChar (c : Char) : List Char :=
  if c = '"' then ['\\', '"']
  else if c = '\\' then ['\\', '\\']
  else if c = '\n' then ['\\', 'n']
  else if c = '\t' then ['\\', 't']
  else if c = '\r' then ['\\', 'r']
  else if c = Char.ofNat 8 then ['\\', 'b']
  else if c = Char.ofNat 12 then ['\\', 'f']
  else if c.toNat < 32 then
    ['\\', 'u', '0', '0', hexDigit (c.toNat / 16), hexDigit (c.toNat % 16)]
  else [c]

/-- `json.dumps` escaping of a string (`ensure_ascii=False`). -/
def jsonEscape (s : String) : String :=
  ⟨(s.data.map jsonEscapeChar).flatten⟩

/-- `n` spaces (the indentation produced by `json.dumps(..., indent=2)`). -/
def spaces (n : Nat) : String :=
  ⟨List.replicate n ' '⟩

mutual

/-- `json.dumps(v, indent=2, ensure_ascii=False)` rendered at current
indentation level `ind`, as used by `ToolResult.to_observation`
(src/backend/app/tools/base.py line 96). -/
def jsonDumps (ind : Nat) : PyVal → String
  | .pyNone => "null"
  | .pyBool b => if b then "true" else "false"
  | .pyInt n => toString n
  | .pyStr s => "\"" ++ jsonEscape s ++ "\""
  | .pyList [] => "[]"
  | .pyList (x :: xs) =>
      "[\n" ++ jsonDumpsItems (ind + 2) (x :: xs) ++ "\n" ++ spaces ind ++ "]"
  | .pyDict [] => "\x7b\x7d"
  | .pyDict (kv :: kvs) =>
      "\x7b\n" ++ jsonDumpsEntries (ind + 2) (kv :: kvs) ++ "\n" ++ spaces ind ++ "\x7d"

/-- The comma-and-newline–separated items of a JSON array at indent `ind`. -/
def jsonDumpsItems (ind : Nat) : List PyVal → String
  | [] => ""
  | [x] => spaces ind ++ jsonDumps ind x
  | x :: y :: xs =>
      spaces ind ++ jsonDumps ind x ++ ",\n" ++ jsonDumpsItems ind (y :: xs)

/-- The comma-and-newline–separated entries of a JSON object at indent `ind`. -/
def jsonDumpsEntries (ind : Nat) : List (String × PyVal) → String
  | [] => ""
  | [(k, v)] => spaces ind ++ "\"" ++ jsonEscape k ++ "\": " ++ jsonDumps ind v
  | (k, v) :: e :: kvs =>
      spaces ind ++ "\"" ++ jsonEscape k ++ "\": " ++ jsonDumps ind v ++ ",\n" ++
        jsonDumpsEntries ind (e :: kvs)

end

/-- `ToolResult` (src/backend/app/tools/base.py lines 86-98): the result of a
capability execution. -/
structure ToolResult where
  success : Bool
  data : PyVal := .pyNone
  error : Option String := none

/-- Python `f"{x}"` for the `error` field (`None` prints as `"None"`). -/
def errStr : Option String → String
  | some e => e
  | none => "None"

/-- `ToolResult.to_observation` (src/backend/app/tools/base.py lines 92-98):
structured data renders as two-space-indented JSON, scalars render via
Python `str`, failures render as `[ERROR] <message>`. -/
def ToolResult.to_observation (r : ToolResult) : String :=
  if r.success then
    match r.data with
    | .pyDict kvs => jsonDumps 0 (.pyDict kvs)
    | .pyList xs => jsonDumps 0 (.pyList xs)
    | .pyNone => "None"
    | .pyBool b => if b then "True" else "False"
    | .pyInt n => toString n
    | .pyStr s => s
  else "[ERROR] " ++ errStr r.error

/-- A registered capability (`Tool`, src/backend/app/tools/base.py lines
101-121): a name plus an `execute` that either returns a `ToolResult` or
raises an exception carrying a message (modelled by `Except String`). -/
structure Tool where
  name : String
  execute : List (String × PyVal) → Except String ToolResult

/-- Association-list lookup, modelling Python `dict` access
(`self._tools.get(name)`). -/
def alist_get {α : Type} (l : List (String × α)) (k : String) : Option α :=
  match l with
  | [] => none
  | (k', v) :: rest => if k' = k then some v else alist_get rest k

/-- `ToolRegistry` (src/backend/app/tools/base.py lines 124-169): the
name-keyed table of capabilities. -/
structure ToolRegistry where
  tools : List (String × Tool)

/-- `ToolRegistry.get` (src/backend/app/tools/base.py line 134). -/
def ToolRegistry.get (reg : ToolRegistry) (name : String) : Option Tool :=
  alist_get reg.tools name

/-- `ToolRegistry.execute` (src/backend/app/tools/base.py lines 154-169):
dispatch by name; unknown names yield a failed result, and an exception
raised by the tool is converted into a failed result. -/
def ToolRegistry.execute (reg : ToolRegistry) (name : String)
    (args : List (String × PyVal)) : ToolResult :=
  match reg.get name with
  | none => { success := false, error := some ("Tool '" ++ name ++ "' not found") }
  | some tool =>
    match tool.execute args with
    | .ok r => r
    | .error e => { success := false, error := some ("Tool execution failed: " ++ e) }

/-- Python `dict` assignment `d[k] = v` on an association list: replaces the
binding if the key is present, otherwise appends it. -/
def alist_set {α : Type} (l : List (String × α)) (k : String) (v : α) :
    List (String × α) :=
  match l with
  | [] => [(k, v)]
  | (k', v') :: rest => if k' = k then (k, v) :: rest else (k', v') :: alist_set rest k v

/-- Python `dict.pop(k, None)`: removes every binding of `k`. -/
def alist_del {α : Type} (l : List (String × α)) (k : String) :
    List (String × α) :=
  l.filter (fun p => p.1 ≠ k)

/-- State of `ApprovalService` (src/backend/app/services/approval.py lines
8-54): `pending` maps an approval id to its `asyncio.Event` (the `Bool` is
the event's set flag), `results` maps an id to the posted decision. -/
structure ApprovalState where
  pending : List (String × Bool)
  results : List (String × Bool)

/-- `ApprovalService.create_request` (approval.py lines 17-21), with the
freshly generated uuid passed in explicitly: stores an unset event under the
new id. -/
def create_request (req_id : String) (s : ApprovalState) : ApprovalState :=
  { s with pending := alist_set s.pending req_id false }

/-- `ApprovalService.approve` (approval.py lines 38-42): if the id is
pending, posts `True` into `results` and sets the event. -/
def approve (req_id : String) (s : ApprovalState) : ApprovalState :=
  if (alist_get s.pending req_id).isSome then
    { pending := alist_set s.pending req_id true,
      results := alist_set s.results req_id true }
  else s

/-- `ApprovalService.reject` (approval.py lines 44-48): if the id is
pending, posts `False` into `results` and sets the event. -/
def reject (req_id : String) (s : ApprovalState) : ApprovalState :=
  if (alist_get s.pending req_id).isSome then
    { pending := alist_set s.pending req_id true,
      results := alist_set s.results req_id false }
  else s

/-- `ApprovalService._cleanup` (approval.py lines 50-54): drops both maps'
entries for the id. -/
def approval_cleanup (req_id : String) (s : ApprovalState) : ApprovalState :=
  { pending := alist_del s.pending req_id,
    results := alist_del s.results req_id }

/-- `ApprovalService.wait_for_approval` (approval.py lines 23-36), evaluated
at the moment the waiter wakes up. `s` is the service state at that moment
and `timed_out` tells whether the wait ended by `asyncio.TimeoutError`
rather than by the event being set. Unknown ids return `False` immediately;
otherwise the posted result (defaulting to `False`) is returned and the
`finally` block releases the bookkeeping. -/
def wait_for_approval (s : ApprovalState) (req_id : String)
    (timed_out : Bool) : Bool × ApprovalState :=
  if (alist_get s.pending req_id).isNone then (false, s)
  else if timed_out then (false, approval_cleanup req_id s)
  else ((alist_get s.results req_id).getD false, approval_cleanup req_id s)

/-- An external `approve`/`reject` call arriving at the service while a
waiter is suspended. -/
inductive AAction where
  | approveAct (req_id : String)
  | rejectAct (req_id : String)

/-- Applies one external call to the service state. -/
def applyAction (s : ApprovalState) (a : AAction) : ApprovalState :=
  match a with
  | .approveAct i => approve i s
  | .rejectAct i => reject i s

/-- The decision posted by the last `approve`/`reject` call for `req_id` in
a trace of external calls, if any (`true` for approve, `false` for reject). -/
def lastDecision (acts : List AAction) (req_id : String) : Option Bool :=
  (acts.filterMap (fun a =>
    match a with
    | .approveAct i => if i = req_id then some true else none
    | .rejectAct i => if i = req_id then some false else none)).getLast?

/-- `Skill` (src/backend/app/skills/manager.py lines 21-37): frontmatter
metadata plus the lazily loaded body (`content`) and its `is_loaded` flag. -/
structure Skill where
  name : String
  description : String
  triggers : List String := []
  author : String := ""
  version : String := "1.0"
  file_path : Option String := none
  content : String := ""
  is_loaded : Bool := false

/-- Whether a character survives Python's `re.sub(r'[^a-z0-9]+', '_', ·)`
after lowercasing. -/
def isSlugChar (c : Char) : Bool :=
  ('a'.toNat ≤ c.toNat && c.toNat ≤ 'z'.toNat) ||
    ('0'.toNat ≤ c.toNat && c.toNat ≤ '9'.toNat)

/-- Auxiliary bound: `dropWhile` never lengthens a list. -/
theorem dropWhile_length_le {α : Type} (p : α → Bool) (l : List α) :
    (l.dropWhile p).length ≤ l.length := by
  induction l with
  | nil => simp [List.dropWhile]
  | cons a l ih => by_cases h : p a <;> simp [List.dropWhile, h] <;> omega

/-- Collapses every maximal run of non-slug characters to one underscore
(the effect of `re.sub(r'[^a-z0-9]+', '_', s)`). -/
def collapseRuns : List Char → List Char
  | [] => []
  | c :: rest =>
    if isSlugChar c then c :: collapseRuns rest
    else '_' :: collapseRuns (rest.dropWhile (fun d => !isSlugChar d))
termination_by l => l.length
decreasing_by
  all_goals simp_wf
  all_goals try omega
  have := dropWhile_length_le (fun d => !isSlugChar d) rest
  omega

/-- `Skill._slug` (manager.py lines 53-55):
`re.sub(r'[^a-z0-9]+', '_', name.lower()).strip('_')`. -/
def Skill.slug (sk : Skill) : String :=
  let collapsed := collapseRuns (sk.name.toLower.data)
  ⟨((collapsed.dropWhile (· = '_')).reverse.dropWhile (· = '_')).reverse⟩

/-- Python `str.title()` on a character list: the first character of each
alphabetic run is uppercased, the rest lowercased. -/
def titleChars : Bool → List Char → List Char
  | _, [] => []
  | prevAlpha, c :: rest =>
    if c.isAlpha then
      (if prevAlpha then c.toLower else c.toUpper) :: titleChars true rest
    else c :: titleChars false rest

/-- `file_path.stem.replace('_', ' ').title()` (manager.py lines 153, 168). -/
def stemTitle (stem : String) : String :=
  ⟨titleChars false (stem.data.map (fun c => if c = '_' then ' ' else c))⟩

/-- The outcome of the frontmatter regex plus `yaml.safe_load` on a skill
file, pre-parsed: the regex either misses, or the YAML is invalid, or falsy,
or yields the metadata fields (each possibly absent). -/
inductive Frontmatter where
  | absent
  | yamlError
  | emptyMeta
  | meta (name description : Option String) (triggers : List String)
      (author version : Option String)

/-- `SkillManager._parse_skill_metadata` (manager.py lines 139-175) given the
pre-parsed frontmatter of the file at `file_path` (with stem `stem` and
basename `file_name`). Every produced skill starts with `is_loaded = false`
and an empty body. -/
def parse_skill_metadata (file_path stem file_name : String)
    (fm : Frontmatter) : Option Skill :=
  match fm with
  | .absent =>
    some { name := stemTitle stem,
           description := "Skill from " ++ file_name,
           file_path := some file_path, is_loaded := false }
  | .yamlError => none
  | .emptyMeta => none
  | .meta n d t a v =>
    some { name := n.getD (stemTitle stem),
           description := d.getD "",
           triggers := t,
           author := a.getD "",
           version := v.getD "1.0",
           file_path := some file_path, is_loaded := false }

/-- `SkillManager.load_skill_content` (manager.py lines 177-198). `files`
models the filesystem already composed with the body-extraction regex of
lines 189-193: it maps a path to the stripped markdown body, or `none` when
the file does not exist. Returns the updated skill object and the returned
content string. -/
def load_skill_content (files : String → Option String) (sk : Skill) :
    Skill × String :=
  if sk.is_loaded then (sk, sk.content)
  else
    match sk.file_path with
    | none => (sk, "")
    | some p =>
      match files p with
      | none => (sk, "")
      | some body => ({ sk with content := body, is_loaded := true }, body)

/-- `str(skill.file_path)` as compared against `event.src_path`
(manager.py line 261); `None` prints as `"None"`. -/
def fpStr : Option String → String
  | some p => p
  | none => "None"

/-- List-based `str.endswith`. -/
def str_ends_with (s p : String) : Bool :=
  List.isSuffixOf p.data s.data

/-- `SkillHandler.on_modified` (manager.py lines 256-262): for a modified
`.md` file, clears `is_loaded` on every skill whose path matches — and
nothing else: the body is kept and no descriptor is removed. -/
def on_modified (src_path : String) (skills : List (String × Skill)) :
    List (String × Skill) :=
  if str_ends_with src_path ".md" then
    skills.map (fun p =>
      if fpStr p.2.file_path = src_path then (p.1, { p.2 with is_loaded := false })
      else p)
  else skills

/-- Python `a or b` over optional strings (`None` and `""` are falsy). -/
def pyOr (a b : Option String) : Option String :=
  match a with
  | some s => if s = "" then b else some s
  | none => b

/-- Python truthiness of an optional string. -/
def strTruthy : Option String → Bool
  | some s => s ≠ ""
  | none => false

/-- `GeminiProvider.__init__` (src/backend/app/agent/llm.py lines 44-63),
reduced to its credential check: the key is resolved as
`api_key or runtime_key or settings.gemini_api_key`, and a falsy or
placeholder key raises `ValueError` at construction time. -/
def gemini_init (api_key runtime_key settings_key : Option String) :
    Except String Unit :=
  let actual_key := pyOr api_key (pyOr runtime_key settings_key)
  if !strTruthy actual_key || actual_key = some "your_gemini_api_key_here" then
    .error "API key não configurada (Gemini). Configure no frontend ou .env"
  else .ok ()

/-- The client configuration `OpenAIProvider.__init__` hands to
`AsyncOpenAI`. -/
structure OpenAIClient where
  api_key : Option String
  base_url : Option String

/-- `OpenAIProvider.__init__` (src/backend/app/agent/llm.py lines 230-256),
reduced to its credential handling: the key is resolved the same way, but
the missing-key branch (lines 243-248) falls through without raising, so
construction always succeeds and the possibly-missing key is passed on. -/
def openai_init (api_key runtime_key settings_key base_url : Option String) :
    Except String OpenAIClient :=
  let actual_key := pyOr api_key (pyOr runtime_key settings_key)
  .ok { api_key := actual_key, base_url := base_url }

/-- List-based `s[n:]` on strings (Python slicing by characters). -/
def str_drop (s : String) (n : Nat) : String :=
  ⟨s.data.drop n⟩

/-- List-based `s[:n]` on strings (Python slicing by characters). -/
def str_take (s : String) (n : Nat) : String :=
  ⟨s.data.take n⟩

/-- List-based `str.startswith`. -/
def str_starts_with (s p : String) : Bool :=
  List.isPrefixOf p.data s.data

/-- Python `set.add` on a set modelled as a duplicate-free list. -/
def setAdd (l : List String) (x : String) : List String :=
  if l.contains x then l else l ++ [x]

/-- A capability call as produced by a provider adapter
(`{id, name, arguments}`). -/
structure ToolCall where
  id : String
  name : String
  arguments : List (String × PyVal)

/-- A message of the conversation (`state.messages` in
src/backend/app/agent/core.py): the tagged variants of the loosely-typed
role dictionaries. An assistant message built without the `tool_calls` key
is represented with an empty call list. -/
inductive Msg where
  | user (content : String)
  | assistant (content : String) (tool_calls : List ToolCall)
  | toolMsg (tool_call_id : String) (name : String) (content : String)

/-- `AgentState` (src/backend/app/agent/core.py lines 19-28). -/
structure AgentState where
  session_id : String
  messages : List Msg := []
  visited_files : List String := []
  activated_skills : List String := []
  tool_call_count : Nat := 0
  max_tool_calls : Nat := 15

/-- A provider reply (or one streaming chunk): normalized
`{content, tool_calls}`. -/
structure LLMReply where
  content : String := ""
  tool_calls : List ToolCall := []

/-- One entry of `all_tool_results` (core.py lines 220-225). -/
structure ToolResultRec where
  tool_name : String
  tool_call_id : String
  success : Bool
  result : String

/-- `AgentResponse` (core.py lines 31-39), restricted to the fields `run`
fills in. -/
structure AgentResponse where
  content : String
  tool_results : List ToolResultRec := []
  thinking : Option String := none
  activated_skills : List String := []
  finished : Bool := true

/-- `"\n".join(thinking_parts) if thinking_parts else None`. -/
def joinParts (parts : List String) : Option String :=
  if parts.isEmpty then none else some (String.intercalate "\n" parts)

/-- How one `wait_for_approval` call gets resolved by the outside world:
`approve` posted in time, `reject` posted in time, or nothing posted before
the timeout. -/
inductive ApprovalResolution where
  | approvedRes
  | rejectedRes
  | timeoutRes
deriving DecidableEq

/-- The observable side effects of a run, in order: provider round trips,
direct capability executions, skill activations, and approval-gate
interaction. -/
inductive Effect where
  | providerCall
  | execTool (name : String) (arguments : List (String × PyVal))
  | skillActivate (slug : String)
  | approvalCreate (req_id : String)
  | approvalAwait (req_id : String) (res : ApprovalResolution)

/-- Whether an effect touches the approval gate. -/
def Effect.isApprovalEffect : Effect → Bool
  | .approvalCreate _ => true
  | .approvalAwait _ _ => true
  | _ => false

/-- Replays the approval-gate interactions of an effect trace onto a gate
state: `approvalCreate` runs `create_request`; `approvalAwait` runs the
external resolution followed by `wait_for_approval`; all other effects
leave the gate untouched. -/
def apply_approval_effects (s : ApprovalState) (effs : List Effect) :
    ApprovalState :=
  effs.foldl (fun s e =>
    match e with
    | .approvalCreate i => create_request i s
    | .approvalAwait i res =>
      match res with
      | .approvedRes => (wait_for_approval (approve i s) i false).2
      | .rejectedRes => (wait_for_approval (reject i s) i false).2
      | .timeoutRes => (wait_for_approval s i true).2
    | _ => s) s

/-- `SkillManager` (manager.py lines 100-117) restricted to its `skills`
dictionary (name-keyed). -/
structure SkillManager where
  skills : List (String × Skill)

/-- The agent's external collaborators, made explicit: the provider (a reply
as a function of the conversation sent to it), its streaming variant (a
chunk list), the capability registry, the skill manager with its filesystem,
the uuid generator for approval requests, and the outside world's resolution
of each approval request. -/
structure AgentEnv where
  provider : List Msg → LLMReply
  provider_stream : List Msg → List LLMReply
  registry : ToolRegistry
  skill_manager : Option SkillManager
  files : String → Option String
  fresh_id : Nat → String
  approval_resolution : String → ApprovalResolution

/-- `Agent._handle_skill_activation` (core.py lines 98-147): strips the
`skill_` name prefix, looks the skill up by slug in the manager, lazily
loads its body, records the activation in the run state, and returns the
instructions as a successful result. -/
def handle_skill_activation (files : String → Option String)
    (mgr : Option SkillManager) (tc : ToolCall) (st : AgentState) :
    ToolResult × Option SkillManager × AgentState :=
  let skill_slug := str_drop tc.name 6
  match mgr with
  | none => ({ success := false, error := some "Skill manager not available" }, none, st)
  | some m =>
    match m.skills.find? (fun p => p.2.slug = skill_slug) with
    | none =>
      ({ success := false, error := some ("Skill '" ++ skill_slug ++ "' not found") },
        some m, st)
    | some (key, sk) =>
      let sk' := (load_skill_content files sk).1
      let m' : SkillManager := { skills := alist_set m.skills key sk' }
      let st' := { st with activated_skills := setAdd st.activated_skills sk'.name }
      ({ success := true,
         data := .pyDict
           [("skill_name", .pyStr sk'.name),
            ("instructions", .pyStr sk'.content),
            ("message", .pyStr ("✅ Skill '" ++ sk'.name ++
              "' ativada!\n\nSiga as instruções abaixo:\n\n" ++ sk'.content))] },
        some m', st')

/-- Visited-resource tracking (core.py lines 214-218): string `path`
arguments of `read_file_chunk`/`file_stats` calls are added to
`visited_files` when non-empty. -/
def visit_track (tc : ToolCall) (st : AgentState) : AgentState :=
  if tc.name = "read_file_chunk" ∨ tc.name = "file_stats" then
    match alist_get tc.arguments "path" with
    | some (.pyStr p) =>
      if p ≠ "" then { st with visited_files := setAdd st.visited_files p } else st
    | _ => st
  else st

/-- The dispatch of a single call inside `Agent.run`'s for-loop (core.py
lines 202-218): a `skill_`-named call goes to skill activation, every other
name — sensitive or not — is executed directly through the registry. -/
def run_dispatch_one (env : AgentEnv) (mgr : Option SkillManager)
    (tc : ToolCall) (st : AgentState) :
    ToolResult × Option SkillManager × AgentState × Effect :=
  if str_starts_with tc.name "skill_" then
    let out := handle_skill_activation env.files mgr tc st
    (out.1, out.2.1, visit_track tc out.2.2, .skillActivate (str_drop tc.name 6))
  else
    (env.registry.execute tc.name tc.arguments, mgr, visit_track tc st,
      .execTool tc.name tc.arguments)

/-- Accumulated output of dispatching a list of calls. -/
structure DispatchOut where
  skill_manager : Option SkillManager
  state : AgentState
  results : List ToolResultRec
  effects : List Effect

/-- The for-loop over `response["tool_calls"]` in `Agent.run` (core.py lines
202-234): dispatches each call in emission order, records the result, and
appends one tool message per call. -/
def run_dispatch_calls (env : AgentEnv) :
    List ToolCall → Option SkillManager → AgentState → List ToolResultRec →
    List Effect → DispatchOut
  | [], mgr, st, acc, effs =>
    { skill_manager := mgr, state := st, results := acc, effects := effs }
  | tc :: rest, mgr, st, acc, effs =>
    let out := run_dispatch_one env mgr tc st
    let obs := out.1.to_observation
    let rec1 : ToolResultRec :=
      { tool_name := tc.name, tool_call_id := tc.id,
        success := out.1.success, result := obs }
    let st'' := { out.2.2.1 with
      messages := out.2.2.1.messages ++ [.toolMsg tc.id tc.name obs] }
    run_dispatch_calls env rest out.2.1 st'' (acc ++ [rec1]) (effs ++ [out.2.2.2])

/-- `visit_track` only touches `visited_files`. -/
theorem visit_track_fields (tc : ToolCall) (st : AgentState) :
    (visit_track tc st).tool_call_count = st.tool_call_count ∧
      (visit_track tc st).max_tool_calls = st.max_tool_calls ∧
      (visit_track tc st).messages = st.messages ∧
      (visit_track tc st).activated_skills = st.activated_skills := by
  unfold visit_track
  split
  · split
    · split <;> simp
    all_goals simp
  · simp

/-- Skill activation only touches `activated_skills` of the run state. -/
theorem handle_skill_activation_fields (files : String → Option String)
    (mgr : Option SkillManager) (tc : ToolCall) (st : AgentState) :
    (handle_skill_activation files mgr tc st).2.2.tool_call_count =
        st.tool_call_count ∧
      (handle_skill_activation files mgr tc st).2.2.max_tool_calls =
        st.max_tool_calls ∧
      (handle_skill_activation files mgr tc st).2.2.messages = st.messages := by
  unfold handle_skill_activation
  split
  · simp
  · dsimp only
    split <;> simp

/-- Dispatching one call never touches the call counter, the limit, or the
message list (the tool message is appended by the caller). -/
theorem run_dispatch_one_fields (env : AgentEnv) (mgr : Option SkillManager)
    (tc : ToolCall) (st : AgentState) :
    (run_dispatch_one env mgr tc st).2.2.1.tool_call_count =
        st.tool_call_count ∧
      (run_dispatch_one env mgr tc st).2.2.1.max_tool_calls =
        st.max_tool_calls ∧
      (run_dispatch_one env mgr tc st).2.2.1.messages = st.messages := by
  unfold run_dispatch_one
  split
  · have h1 := handle_skill_activation_fields env.files mgr tc st
    have h2 := visit_track_fields tc (handle_skill_activation env.files mgr tc st).2.2
    exact ⟨by rw [h2.1, h1.1], by rw [h2.2.1, h1.2.1], by rw [h2.2.2.1, h1.2.2]⟩
  · have h2 := visit_track_fields tc st
    exact ⟨h2.1, h2.2.1, h2.2.2.1⟩

/-- Dispatching calls never touches the call counter or the limit (it only
executes tools and appends messages), so the loop guard's measure is driven
by the counter update alone. -/
theorem run_dispatch_calls_count (env : AgentEnv) :
    ∀ (calls : List ToolCall) (mgr : Option SkillManager) (st : AgentState)
      (acc : List ToolResultRec) (effs : List Effect),
      (run_dispatch_calls env calls mgr st acc effs).state.tool_call_count =
          st.tool_call_count ∧
        (run_dispatch_calls env calls mgr st acc effs).state.max_tool_calls =
          st.max_tool_calls := by
  intro calls
  induction calls with
  | nil => intro mgr st acc effs; simp [run_dispatch_calls]
  | cons tc rest ih =>
    intro mgr st acc effs
    have h1 := run_dispatch_one_fields env mgr tc st
    simp only [run_dispatch_calls]
    constructor
    · rw [(ih _ _ _ _).1]; exact h1.1
    · rw [(ih _ _ _ _).2]; exact h1.2.1

/-- The outcome of `Agent.run`: the returned `AgentResponse`, the final run
state and skill manager, and the trace of external effects. -/
structure RunOut where
  response : AgentResponse
  state : AgentState
  skill_manager : Option SkillManager
  effects : List Effect

/-- The fixed advisory returned when the call limit is reached
(core.py line 258). -/
def limit_advisory : String :=
  "⚠️ Atingi o limite de operações. Por favor, seja mais específico sobre o que você precisa."

/-- The `while state.tool_call_count < state.max_tool_calls` loop of
`Agent.run` (core.py lines 176-263). Each iteration performs one provider
call; a reply with calls increments the counter by the number of calls,
appends the assistant message and one tool message per call, and loops; a
reply without calls appends the assistant message and returns; a failed
guard returns the fixed advisory. -/
def run_loop (env : AgentEnv) (mgr : Option SkillManager) (st : AgentState)
    (acc : List ToolResultRec) (parts : List String) (effs : List Effect) :
    RunOut :=
  if h : st.tool_call_count < st.max_tool_calls then
    let response := env.provider st.messages
    match hr : response.tool_calls with
    | [] =>
      let st' := { st with messages := st.messages ++ [.assistant response.content []] }
      { response :=
          { content := response.content, tool_results := acc,
            thinking := joinParts parts,
            activated_skills := st.activated_skills, finished := true },
        state := st', skill_manager := mgr,
        effects := effs ++ [.providerCall] }
    | tc :: rest =>
      let st1 := { st with
        tool_call_count := st.tool_call_count + (tc :: rest).length,
        messages := st.messages ++ [.assistant response.content (tc :: rest)] }
      let parts' := if response.content ≠ "" then parts ++ [response.content] else parts
      let d := run_dispatch_calls env (tc :: rest) mgr st1 acc (effs ++ [.providerCall])
      run_loop env d.skill_manager d.state d.results parts' d.effects
  else
    { response :=
        { content := limit_advisory, tool_results := acc,
          thinking := joinParts parts,
          activated_skills := st.activated_skills, finished := true },
      state := st, skill_manager := mgr, effects := effs }
termination_by st.max_tool_calls - st.tool_call_count
decreasing_by
  have hc := run_dispatch_calls_count env (tc :: rest) mgr
    { st with
      tool_call_count := st.tool_call_count + (tc :: rest).length,
      messages := st.messages ++ [.assistant (env.provider st.messages).content (tc :: rest)] }
    acc (effs ++ [.providerCall])
  simp only [List.length_cons] at *
  omega

/-- `Agent.run` (core.py lines 149-263): appends the user message and enters
the ReAct loop with the agent's skill manager. -/
def Agent.run (env : AgentEnv) (message : String) (st : AgentState) : RunOut :=
  run_loop env env.skill_manager
    { st with messages := st.messages ++ [.user message] } [] [] []

/-- The streaming event protocol of `Agent.run_stream` (core.py lines
265-417). -/
inductive Event where
  | contentEv (text : String)
  | toolStartEv (name : String) (arguments : List (String × PyVal)) (is_skill : Bool)
  | skillActivatedEv (name : String) (success : Bool)
  | approvalRequiredEv (approval_id : String) (tool_name : String)
      (arguments : List (String × PyVal))
  | errorEv (message : String)
  | toolEndEv (name : String) (success : Bool) (result : String)
  | doneEv (visited_files : List String) (activated_skills : List String)
      (tool_calls : Nat)

/-- The hard-coded list of capability names gated behind human approval
(core.py line 338). -/
def sensitive_tools : List String :=
  ["write_to_file", "replace_file_content", "run_command", "delete_file"]

/-- Accumulated output of the streaming loop and of each dispatched call. -/
structure StreamOut where
  events : List Event
  state : AgentState
  skill_manager : Option SkillManager
  approval : ApprovalState
  counter : Nat
  effects : List Effect

/-- The body of the for-loop over `full_response["tool_calls"]` in
`Agent.run_stream` (core.py lines 313-393): emits `tool_start`; a skill call
activates the skill and emits `skill_activated`; any other call naming a
sensitive capability creates an approval request, emits `approval_required`
and blocks on `wait_for_approval` — executing through the registry only when
approved, otherwise substituting a synthetic failing result and emitting
`error`; non-sensitive calls execute directly; finally `tool_end` is emitted
(result truncated to 500 characters) and the tool message appended. -/
def run_stream_dispatch (env : AgentEnv) (tc : ToolCall)
    (mgr : Option SkillManager) (st : AgentState) (apr : ApprovalState)
    (ctr : Nat) : StreamOut :=
  let is_skill := str_starts_with tc.name "skill_"
  let startEv : Event := .toolStartEv tc.name tc.arguments is_skill
  if is_skill then
    let out := handle_skill_activation env.files mgr tc st
    let result := out.1
    let obs := result.to_observation
    let st' := visit_track tc out.2.2
    let st'' := { st' with messages := st'.messages ++ [.toolMsg tc.id tc.name obs] }
    { events := [startEv, .skillActivatedEv (str_drop tc.name 6) result.success,
        .toolEndEv tc.name result.success (str_take obs 500)],
      state := st'', skill_manager := out.2.1, approval := apr, counter := ctr,
      effects := [.skillActivate (str_drop tc.name 6)] }
  else if tc.name ∈ sensitive_tools then
    let req_id := env.fresh_id ctr
    let apr1 := create_request req_id apr
    let res := env.approval_resolution req_id
    let waited :=
      match res with
      | .approvedRes => wait_for_approval (approve req_id apr1) req_id false
      | .rejectedRes => wait_for_approval (reject req_id apr1) req_id false
      | .timeoutRes => wait_for_approval apr1 req_id true
    let approved := waited.1
    let apr2 := waited.2
    let result :=
      if approved then env.registry.execute tc.name tc.arguments
      else { success := false,
             error := some "Ação rejeitada pelo usuário ou timeout." }
    let obs := result.to_observation
    let st' := visit_track tc st
    let st'' := { st' with messages := st'.messages ++ [.toolMsg tc.id tc.name obs] }
    { events := [startEv, .approvalRequiredEv req_id tc.name tc.arguments] ++
        (if approved then [] else [.errorEv "Ação cancelada pelo usuário."]) ++
        [.toolEndEv tc.name result.success (str_take obs 500)],
      state := st'', skill_manager := mgr, approval := apr2, counter := ctr + 1,
      effects := [.approvalCreate req_id, .approvalAwait req_id res] ++
        (if approved then [.execTool tc.name tc.arguments] else []) }
  else
    let result := env.registry.execute tc.name tc.arguments
    let obs := result.to_observation
    let st' := visit_track tc st
    let st'' := { st' with messages := st'.messages ++ [.toolMsg tc.id tc.name obs] }
    { events := [startEv, .toolEndEv tc.name result.success (str_take obs 500)],
      state := st'', skill_manager := mgr, approval := apr, counter := ctr,
      effects := [.execTool tc.name tc.arguments] }

/-- The for-loop over the accumulated tool calls in `Agent.run_stream`:
dispatches each call in emission order, concatenating events and effects. -/
def run_stream_dispatch_calls (env : AgentEnv) :
    List ToolCall → Option SkillManager → AgentState → ApprovalState → Nat →
    List Event → List Effect → StreamOut
  | [], mgr, st, apr, ctr, evs, effs =>
    { events := evs, state := st, skill_manager := mgr, approval := apr,
      counter := ctr, effects := effs }
  | tc :: rest, mgr, st, apr, ctr, evs, effs =>
    let out := run_stream_dispatch env tc mgr st apr ctr
    run_stream_dispatch_calls env rest out.skill_manager out.state out.approval
      out.counter (evs ++ out.events) (effs ++ out.effects)

/-- The `content` events produced while consuming the provider's chunk
stream (core.py lines 288-301): one event per chunk with non-empty content. -/
def chunk_content_events (chunks : List LLMReply) : List Event :=
  chunks.filterMap (fun ch =>
    if ch.content ≠ "" then some (.contentEv ch.content) else none)

/-- The aggregation of the provider's chunk stream into `full_response`
(core.py lines 286-301). -/
def aggregate_chunks (chunks : List LLMReply) : LLMReply :=
  { content := String.join (chunks.map (fun ch => ch.content)),
    tool_calls := (chunks.map (fun ch => ch.tool_calls)).flatten }

/-- Streaming dispatch of one call never touches the call counter or the
limit. -/
theorem run_stream_dispatch_count (env : AgentEnv) (tc : ToolCall)
    (mgr : Option SkillManager) (st : AgentState) (apr : ApprovalState)
    (ctr : Nat) :
    (run_stream_dispatch env tc mgr st apr ctr).state.tool_call_count =
        st.tool_call_count ∧
      (run_stream_dispatch env tc mgr st apr ctr).state.max_tool_calls =
        st.max_tool_calls := by
  have hh := handle_skill_activation_fields env.files mgr tc st
  have hv1 := visit_track_fields tc (handle_skill_activation env.files mgr tc st).2.2
  have hv2 := visit_track_fields tc st
  by_cases hs : str_starts_with tc.name "skill_" = true <;>
    by_cases hm : tc.name ∈ sensitive_tools <;>
      refine ⟨?_, ?_⟩ <;>
        simp [run_stream_dispatch, hs, hm, hv1.1, hv1.2.1, hh.1, hh.2.1,
          hv2.1, hv2.2.1]

/-- Streaming dispatch of a call list never touches the call counter or the
limit. -/
theorem run_stream_dispatch_calls_count (env : AgentEnv) :
    ∀ (calls : List ToolCall) (mgr : Option SkillManager) (st : AgentState)
      (apr : ApprovalState) (ctr : Nat) (evs : List Event) (effs : List Effect),
      (run_stream_dispatch_calls env calls mgr st apr ctr evs effs).state.tool_call_count =
          st.tool_call_count ∧
        (run_stream_dispatch_calls env calls mgr st apr ctr evs effs).state.max_tool_calls =
          st.max_tool_calls := by
  intro calls
  induction calls with
  | nil => intro mgr st apr ctr evs effs; simp [run_stream_dispatch_calls]
  | cons tc rest ih =>
    intro mgr st apr ctr evs effs
    have h1 := run_stream_dispatch_count env tc mgr st apr ctr
    simp only [run_stream_dispatch_calls]
    constructor
    · rw [(ih _ _ _ _ _ _).1]; exact h1.1
    · rw [(ih _ _ _ _ _ _).2]; exact h1.2

/-- The `while` loop of `Agent.run_stream` (core.py lines 284-417): each
iteration streams one provider reply, emits `content` events per chunk,
aggregates the chunks; a reply with calls increments the counter, appends
the assistant message, dispatches each call, and loops; a reply without
calls appends the assistant message and emits `done`; a failed guard emits
the limit `error` event. -/
def run_stream_loop (env : AgentEnv) (mgr : Option SkillManager)
    (st : AgentState) (apr : ApprovalState) (ctr : Nat) (evs : List Event)
    (effs : List Effect) : StreamOut :=
  if h : st.tool_call_count < st.max_tool_calls then
    let chunks := env.provider_stream st.messages
    let full := aggregate_chunks chunks
    let evs1 := evs ++ chunk_content_events chunks
    match hr : full.tool_calls with
    | [] =>
      let st' := { st with messages := st.messages ++ [.assistant full.content []] }
      { events := evs1 ++
          [.doneEv st.visited_files st.activated_skills st.tool_call_count],
        state := st', skill_manager := mgr, approval := apr, counter := ctr,
        effects := effs ++ [.providerCall] }
    | tc :: rest =>
      let st1 := { st with
        tool_call_count := st.tool_call_count + (tc :: rest).length,
        messages := st.messages ++ [.assistant full.content (tc :: rest)] }
      let d := run_stream_dispatch_calls env (tc :: rest) mgr st1 apr ctr evs1
        (effs ++ [.providerCall])
      run_stream_loop env d.skill_manager d.state d.approval d.counter d.events
        d.effects
  else
    { events := evs ++ [.errorEv "Tool call limit reached"], state := st,
      skill_manager := mgr, approval := apr, counter := ctr, effects := effs }
termination_by st.max_tool_calls - st.tool_call_count
decreasing_by
  have hc := run_stream_dispatch_calls_count env (tc :: rest) mgr
    { st with
      tool_call_count := st.tool_call_count + (tc :: rest).length,
      messages := st.messages ++
        [.assistant (aggregate_chunks (env.provider_stream st.messages)).content
          (tc :: rest)] }
    apr ctr (evs ++ chunk_content_events (env.provider_stream st.messages))
    (effs ++ [.providerCall])
  simp only [List.length_cons] at *
  omega

/-- `Agent.run_stream` (core.py lines 265-417): appends the user message and
enters the streaming ReAct loop, with `apr` the approval gate's state at the
start of the run. -/
def Agent.run_stream (env : AgentEnv) (message : String) (st : AgentState)
    (apr : ApprovalState) : StreamOut :=
  run_stream_loop env env.skill_manager
    { st with messages := st.messages ++ [.user message] } apr 0 [] []

/-- C10: for every CapabilityResult, the observation rendering is the
two-space-indented JSON for successful structured data (dict or list), the
plain string form for successful scalar data, and the tagged
`[ERROR] <message>` line for failures — including the three concrete
examples of the specification: `{"a":1}`, `"x"` and error `"boom"`. -/
theorem claim_C10_observation_rendering :
    (∀ (kvs : List (String × PyVal)) (e : Option String),
      ToolResult.to_observation ⟨true, .pyDict kvs, e⟩ = jsonDumps 0 (.pyDict kvs)) ∧
    (∀ (xs : List PyVal) (e : Option String),
      ToolResult.to_observation ⟨true, .pyList xs, e⟩ = jsonDumps 0 (.pyList xs)) ∧
    (∀ (s : String) (e : Option String),
      ToolResult.to_observation ⟨true, .pyStr s, e⟩ = s) ∧
    (∀ (d : PyVal) (m : String),
      ToolResult.to_observation ⟨false, d, some m⟩ = "[ERROR] " ++ m) ∧
    ToolResult.to_observation ⟨true, .pyDict [("a", .pyInt 1)], none⟩ =
      "\x7b\n  \"a\": 1\n\x7d" ∧
    ToolResult.to_observation ⟨true, .pyStr "x", none⟩ = "x" ∧
    ToolResult.to_observation ⟨false, .pyNone, some "boom"⟩ = "[ERROR] boom" := by
  refine ⟨?_, ?_, ?_, ?_, ?_, ?_, ?_⟩ <;> first | (intros; rfl) | rfl

/-- C2: registry dispatch is a total function that never propagates a fault:
an unregistered name yields `success = false` with the `not found` error,
and a registered capability whose `execute` raises yields `success = false`
carrying the fault's message. -/
theorem claim_C2_dispatch_total (reg : ToolRegistry) (name : String)
    (args : List (String × PyVal)) :
    (reg.get name = none →
      reg.execute name args =
        { success := false, data := .pyNone,
          error := some ("Tool '" ++ name ++ "' not found") }) ∧
    (∀ (tool : Tool) (e : String), reg.get name = some tool →
      tool.execute args = .error e →
      reg.execute name args =
        { success := false, data := .pyNone,
          error := some ("Tool execution failed: " ++ e) }) := by
  constructor
  · intro h
    simp [ToolRegistry.execute, h]
  · intro tool e h he
    simp [ToolRegistry.execute, h, he]

/-- A capability whose `execute` always raises, used to witness C2. -/
def faultTool : Tool :=
  { name := "boom_tool", execute := fun _ => .error "kaput" }

/-- A one-entry registry holding only `faultTool`, used to witness C2. -/
def faultRegistry : ToolRegistry :=
  { tools := [("boom_tool", faultTool)] }

/-- Witness for C2 at a concrete registry: dispatching the unknown name
`"nope"` and the always-raising `"boom_tool"`. -/
theorem claim_C2_dispatch_total_witness :
    faultRegistry.execute "nope" [] =
      { success := false, data := .pyNone,
        error := some ("Tool '" ++ "nope" ++ "' not found") } ∧
    faultRegistry.execute "boom_tool" [] =
      { success := false, data := .pyNone,
        error := some ("Tool execution failed: " ++ "kaput") } :=
  ⟨(claim_C2_dispatch_total faultRegistry "nope" []).1 rfl,
   (claim_C2_dispatch_total faultRegistry "boom_tool" []).2 faultTool "kaput" rfl rfl⟩

/-- C7 is a code bug: the specification demands that both provider
constructors fail fast on a missing or placeholder credential, and
`GeminiProvider.__init__` indeed raises on a falsy or placeholder key — but
`OpenAIProvider.__init__` (llm.py lines 243-248) lets a missing key fall
through (its own comment says `No, raise.` and then does not) and always
constructs the client, also for a placeholder key. -/
theorem claim_C7_credential_check_divergence :
    gemini_init none none none =
      .error "API key não configurada (Gemini). Configure no frontend ou .env" ∧
    gemini_init (some "your_gemini_api_key_here") none none =
      .error "API key não configurada (Gemini). Configure no frontend ou .env" ∧
    gemini_init (some "") (some "") none =
      .error "API key não configurada (Gemini). Configure no frontend ou .env" ∧
    openai_init none none none none =
      .ok { api_key := none, base_url := none } ∧
    openai_init (some "your_gemini_api_key_here") none none none =
      .ok { api_key := some "your_gemini_api_key_here", base_url := none } := by
  refine ⟨rfl, ?_, rfl, rfl, rfl⟩
  rfl

/-- A loaded skill descriptor whose source file is then modified, used to
refute part of C5. -/
def demoSkill : Skill :=
  { name := "Demo", description := "", file_path := some "/skills/demo.md",
    content := "BODY", is_loaded := true }

/-- C5 counterexample: after the watcher's invalidation for the skill's
source file, `is_loaded` reverts to `false` but the body is NOT cleared —
`content` still holds `"BODY"`, refuting the claim's "with the body
cleared" (manager.py lines 260-262 only reset the flag). -/
theorem claim_C5_counterexample :
    (on_modified "/skills/demo.md" [("Demo", demoSkill)]).map
        (fun p => (p.2.is_loaded, p.2.content)) = [(false, "BODY")] ∧
    "BODY" ≠ "" := by
  constructor
  · rfl
  · decide

/-- C5 amended: `is_loaded` is `false` (with an empty body) for every skill
produced by the scan; the first activation loads the body and sets
`is_loaded`, and is idempotent thereafter; invalidation by a source-file
modification clears `is_loaded` while keeping the descriptor in the set —
but it retains the stale body instead of clearing it (the body is only
replaced on the next load). -/
theorem claim_C5_skill_lifecycle :
    (∀ (fp stem fn : String) (fm : Frontmatter) (sk : Skill),
      parse_skill_metadata fp stem fn fm = some sk →
        sk.is_loaded = false ∧ sk.content = "") ∧
    (∀ (n d a v : String) (tr : List String) (p c0 body : String),
      load_skill_content (fun q => if q = p then some body else none)
          { name := n, description := d, triggers := tr, author := a,
            version := v, file_path := some p, content := c0, is_loaded := false } =
        ({ name := n, description := d, triggers := tr, author := a,
           version := v, file_path := some p, content := body, is_loaded := true },
          body)) ∧
    (∀ (files : String → Option String) (n d a v : String) (tr : List String)
        (fp : Option String) (c : String),
      load_skill_content files
          { name := n, description := d, triggers := tr, author := a,
            version := v, file_path := fp, content := c, is_loaded := true } =
        ({ name := n, description := d, triggers := tr, author := a,
           version := v, file_path := fp, content := c, is_loaded := true }, c)) ∧
    (∀ (sp : String) (skills : List (String × Skill)),
      (on_modified sp skills).map (fun p => p.1) = skills.map (fun p => p.1) ∧
        (on_modified sp skills).map (fun p => p.2.content) =
          skills.map (fun p => p.2.content)) ∧
    (∀ (sp k : String) (sk : Skill), str_ends_with sp ".md" = true →
      fpStr sk.file_path = sp →
      on_modified sp [(k, sk)] = [(k, { sk with is_loaded := false })]) := by
  refine ⟨?_, ?_, ?_, ?_, ?_⟩
  · intro fp stem fn fm sk h
    cases fm <;> simp [parse_skill_metadata] at h <;> (rw [← h]; exact ⟨rfl, rfl⟩)
  · intro n d a v tr p c0 body
    simp [load_skill_content]
  · intro files n d a v tr fp c
    simp [load_skill_content]
  · intro sp skills
    unfold on_modified
    split
    · constructor
      · rw [List.map_map]
        apply List.map_congr_left
        intro p _
        by_cases h : fpStr p.2.file_path = sp <;> simp [h]
      · rw [List.map_map]
        apply List.map_congr_left
        intro p _
        by_cases h : fpStr p.2.file_path = sp <;> simp [h]
    · exact ⟨rfl, rfl⟩
  · intro sp k sk h1 h2
    simp [on_modified, h1, h2]

/-- The skill descriptor the scan produces for a frontmatter-less file
`a.md`, used to witness C5. -/
def skA : Skill :=
  { name := "A", description := "Skill from a.md", file_path := some "/s/a.md" }

/-- Witness for C5 at concrete inputs: a scanned descriptor starts
unloaded, a concrete load sets the flag and body, a second load is a no-op,
and a concrete invalidation clears only the flag. -/
theorem claim_C5_skill_lifecycle_witness :
    (parse_skill_metadata "/s/a.md" "a" "a.md" .absent = some skA ∧
      skA.is_loaded = false ∧ skA.content = "") ∧
    load_skill_content (fun q => if q = "/s/a.md" then some "B" else none)
        { name := "A", description := "d", triggers := [], author := "",
          version := "1.0", file_path := some "/s/a.md", content := "",
          is_loaded := false } =
      ({ name := "A", description := "d", triggers := [], author := "",
         version := "1.0", file_path := some "/s/a.md", content := "B",
         is_loaded := true }, "B") ∧
    load_skill_content (fun _ => none)
        { name := "A", description := "d", triggers := [], author := "",
          version := "1.0", file_path := some "/s/a.md", content := "B",
          is_loaded := true } =
      ({ name := "A", description := "d", triggers := [], author := "",
         version := "1.0", file_path := some "/s/a.md", content := "B",
         is_loaded := true }, "B") ∧
    on_modified "/skills/demo.md" [("Demo", demoSkill)] =
      [("Demo", { demoSkill with is_loaded := false })] :=
  ⟨⟨rfl, (claim_C5_skill_lifecycle.1 "/s/a.md" "a" "a.md" .absent skA rfl)⟩,
    claim_C5_skill_lifecycle.2.1 "A" "d" "" "1.0" [] "/s/a.md" "" "B",
    claim_C5_skill_lifecycle.2.2.1 (fun _ => none) "A" "d" "" "1.0" []
      (some "/s/a.md") "B",
    claim_C5_skill_lifecycle.2.2.2.2 "/skills/demo.md" "Demo" demoSkill
      (by decide) rfl⟩

/-- Setting a key makes it present with the new value. -/
theorem alist_get_set_self {α : Type} (l : List (String × α)) (k : String)
    (v : α) : alist_get (alist_set l k v) k = some v := by
  induction l with
  | nil => simp [alist_set, alist_get]
  | cons p rest ih =>
    by_cases h : p.1 = k <;> simp [alist_set, alist_get, h, ih]

/-- Setting a key leaves other keys' lookups unchanged. -/
theorem alist_get_set_ne {α : Type} (l : List (String × α)) (k k2 : String)
    (v : α) (h : k2 ≠ k) : alist_get (alist_set l k v) k2 = alist_get l k2 := by
  have h' : ¬(k = k2) := fun he => h he.symm
  induction l with
  | nil => simp [alist_set, alist_get, h']
  | cons p rest ih =>
    by_cases hp : p.1 = k
    · simp [alist_set, alist_get, hp, h']
    · simp only [alist_set, hp, if_false, alist_get]
      by_cases hq : p.1 = k2 <;> simp [hq, ih]

/-- Deleting a key removes its binding. -/
theorem alist_get_del_self {α : Type} (l : List (String × α)) (k : String) :
    alist_get (alist_del l k) k = none := by
  induction l with
  | nil => rfl
  | cons p rest ih =>
    by_cases h : p.1 = k <;> simp [alist_del, List.filter, h, alist_get, ih] <;>
      simpa [alist_del] using ih

/-- The decision a single external call posts for `req_id`, if any. -/
def actDecision (a : AAction) (req_id : String) : Option Bool :=
  match a with
  | .approveAct i => if i = req_id then some true else none
  | .rejectAct i => if i = req_id then some false else none

/-- `getLast?` of a cons in terms of the tail's `getLast?`. -/
theorem getLast?_cons_eq {α : Type} (x : α) (l : List α) :
    (x :: l).getLast? =
      (match l.getLast? with
       | some b => some b
       | none => some x) := by
  cases l with
  | nil => rfl
  | cons y ys =>
    rw [List.getLast?_cons_cons]
    cases h : (y :: ys).getLast? with
    | none => simp [List.getLast?_eq_none_iff] at h
    | some b => rfl

/-- Unfolding `lastDecision` over a leading call. -/
theorem lastDecision_cons (a : AAction) (acts : List AAction)
    (req_id : String) :
    lastDecision (a :: acts) req_id =
      (match lastDecision acts req_id with
       | some b => some b
       | none => actDecision a req_id) := by
  unfold lastDecision
  cases ha : actDecision a req_id with
  | none =>
    have : (List.filterMap (fun a =>
        match a with
        | .approveAct i => if i = req_id then some true else none
        | .rejectAct i => if i = req_id then some false else none) (a :: acts)) =
        List.filterMap (fun a =>
        match a with
        | .approveAct i => if i = req_id then some true else none
        | .rejectAct i => if i = req_id then some false else none) acts := by
      rw [List.filterMap_cons]
      cases a <;> simp_all [actDecision]
    rw [this]
    cases h : (List.filterMap _ acts).getLast? <;> rfl
  | some b =>
    have : (List.filterMap (fun a =>
        match a with
        | .approveAct i => if i = req_id then some true else none
        | .rejectAct i => if i = req_id then some false else none) (a :: acts)) =
        b :: List.filterMap (fun a =>
        match a with
        | .approveAct i => if i = req_id then some true else none
        | .rejectAct i => if i = req_id then some false else none) acts := by
      rw [List.filterMap_cons]
      cases a <;> simp_all [actDecision]
    rw [this, getLast?_cons_eq]
    cases (List.filterMap (fun a =>
        match a with
        | AAction.approveAct i => if i = req_id then some true else none
        | AAction.rejectAct i => if i = req_id then some false else none)
      acts).getLast? <;> rfl

/-- One external call keeps `req_id` pending (events are only ever set, the
entry is never removed by `approve`/`reject`). -/
theorem applyAction_pending (a : AAction) (s : ApprovalState) (req_id : String)
    (h : (alist_get s.pending req_id).isSome = true) :
    (alist_get (applyAction s a).pending req_id).isSome = true := by
  cases a with
  | approveAct j =>
    by_cases hp : (alist_get s.pending j).isSome = true
    · by_cases hj : j = req_id
      · subst hj; simp [applyAction, approve, hp, alist_get_set_self]
      · simp [applyAction, approve, hp,
          alist_get_set_ne s.pending j req_id true (fun he => hj he.symm), h]
    · simp [applyAction, approve, hp, h]
  | rejectAct j =>
    by_cases hp : (alist_get s.pending j).isSome = true
    · by_cases hj : j = req_id
      · subst hj; simp [applyAction, reject, hp, alist_get_set_self]
      · simp [applyAction, reject, hp,
          alist_get_set_ne s.pending j req_id true (fun he => hj he.symm), h]
    · simp [applyAction, reject, hp, h]

/-- One external call updates `results[req_id]` exactly when it posts a
decision for `req_id` (which requires the id to be pending). -/
theorem applyAction_results (a : AAction) (s : ApprovalState) (req_id : String)
    (h : (alist_get s.pending req_id).isSome = true) :
    alist_get (applyAction s a).results req_id =
      (match actDecision a req_id with
       | some b => some b
       | none => alist_get s.results req_id) := by
  cases a with
  | approveAct j =>
    by_cases hj : j = req_id
    · subst hj
      simp [applyAction, approve, h, actDecision, alist_get_set_self]
    · by_cases hp : (alist_get s.pending j).isSome = true
      · simp [applyAction, approve, hp, actDecision, hj,
          alist_get_set_ne s.results j req_id true (fun he => hj he.symm)]
      · simp [applyAction, approve, hp, actDecision, hj]
  | rejectAct j =>
    by_cases hj : j = req_id
    · subst hj
      simp [applyAction, reject, h, actDecision, alist_get_set_self]
    · by_cases hp : (alist_get s.pending j).isSome = true
      · simp [applyAction, reject, hp, actDecision, hj,
          alist_get_set_ne s.results j req_id false (fun he => hj he.symm)]
      · simp [applyAction, reject, hp, actDecision, hj]

/-- Replaying a trace of external calls: the id stays pending and
`results[req_id]` ends up holding the last posted decision (or its initial
value when the trace posts none). -/
theorem approval_fold (req_id : String) :
    ∀ (acts : List AAction) (s : ApprovalState),
      (alist_get s.pending req_id).isSome = true →
      (alist_get (acts.foldl applyAction s).pending req_id).isSome = true ∧
        alist_get (acts.foldl applyAction s).results req_id =
          (match lastDecision acts req_id with
           | some b => some b
           | none => alist_get s.results req_id) := by
  intro acts
  induction acts with
  | nil =>
    intro s h
    refine ⟨h, ?_⟩
    simp [lastDecision]
  | cons a acts ih =>
    intro s h
    have h1 := applyAction_pending a s req_id h
    have h2 := applyAction_results a s req_id h
    have h3 := ih (applyAction s a) h1
    refine ⟨h3.1, ?_⟩
    rw [List.foldl_cons] at *
    rw [h3.2, lastDecision_cons, h2]
    cases hl : lastDecision acts req_id <;> cases hd : actDecision a req_id <;> rfl

/-- C4 counterexample: `approve("r1")` is called before the timeout, yet
`await_resolution` returns `false`, because a subsequent `reject("r1")` —
which the claim says must be a no-op after the first resolution — overrides
the posted decision: `approve`/`reject` only check membership in `_pending`,
and the id stays in `_pending` until the waiter's own cleanup runs. -/
theorem claim_C4_counterexample :
    (wait_for_approval
        (reject "r1" (approve "r1" (create_request "r1" ⟨[], []⟩)))
        "r1" false).1 = false := by
  decide

/-- C4 amended: for a freshly created request id, `await_resolution` returns
the decision posted by the LAST `approve`/`reject` call observed before the
waiter wakes (`true` for approve, `false` for reject, `false` when nothing
was posted), returns `false` on timeout, always releases the id's
bookkeeping on exit, and `approve`/`reject` are no-ops only on ids that are
not pending (unknown, or already released). -/
theorem claim_C4_approval_resolution (s0 : ApprovalState) (req_id : String)
    (acts : List AAction)
    (hfresh : alist_get s0.results req_id = none) :
    ((wait_for_approval (acts.foldl applyAction (create_request req_id s0))
        req_id false).1 = (lastDecision acts req_id).getD false) ∧
    ((wait_for_approval (acts.foldl applyAction (create_request req_id s0))
        req_id true).1 = false) ∧
    (alist_get (wait_for_approval (acts.foldl applyAction
        (create_request req_id s0)) req_id false).2.pending req_id = none ∧
      alist_get (wait_for_approval (acts.foldl applyAction
        (create_request req_id s0)) req_id false).2.results req_id = none) ∧
    (alist_get (wait_for_approval (acts.foldl applyAction
        (create_request req_id s0)) req_id true).2.pending req_id = none ∧
      alist_get (wait_for_approval (acts.foldl applyAction
        (create_request req_id s0)) req_id true).2.results req_id = none) ∧
    (∀ s : ApprovalState, alist_get s.pending req_id = none →
      approve req_id s = s ∧ reject req_id s = s) := by
  have hpend0 : (alist_get (create_request req_id s0).pending req_id).isSome = true := by
    simp [create_request, alist_get_set_self]
  have hfold := approval_fold req_id acts (create_request req_id s0) hpend0
  have hres0 : alist_get (create_request req_id s0).results req_id = none := hfresh
  have hpendN : ¬((alist_get (acts.foldl applyAction
      (create_request req_id s0)).pending req_id).isNone = true) := by
    rw [Option.isNone_iff_eq_none]
    intro hc
    rw [hc] at hfold
    simp at hfold
  refine ⟨?_, ?_, ?_, ?_, ?_⟩
  · rw [wait_for_approval]
    rw [if_neg hpendN, if_neg (by simp)]
    rw [hfold.2, hres0]
    cases lastDecision acts req_id <;> rfl
  · rw [wait_for_approval]
    rw [if_neg hpendN, if_pos rfl]
  · constructor
    · rw [wait_for_approval]
      rw [if_neg hpendN, if_neg (by simp)]
      exact alist_get_del_self _ _
    · rw [wait_for_approval]
      rw [if_neg hpendN, if_neg (by simp)]
      exact alist_get_del_self _ _
  · constructor
    · rw [wait_for_approval]
      rw [if_neg hpendN, if_pos rfl]
      exact alist_get_del_self _ _
    · rw [wait_for_approval]
      rw [if_neg hpendN, if_pos rfl]
      exact alist_get_del_self _ _
  · intro s hs
    constructor
    · simp [approve, hs]
    · simp [reject, hs]

/-- Witness for C4 at a concrete trace: a fresh id `"r1"` is approved and
then rejected before the waiter wakes; the amended statement computes the
outcome `false` (the last decision), the released bookkeeping, and the
no-op of `approve` on a non-pending id. -/
theorem claim_C4_approval_resolution_witness :
    ((wait_for_approval
        ([AAction.approveAct "r1", AAction.rejectAct "r1"].foldl applyAction
          (create_request "r1" ⟨[], []⟩)) "r1" false).1 =
      (lastDecision [AAction.approveAct "r1", AAction.rejectAct "r1"] "r1").getD
        false) ∧
    (alist_get (wait_for_approval
        ([AAction.approveAct "r1", AAction.rejectAct "r1"].foldl applyAction
          (create_request "r1" ⟨[], []⟩)) "r1" false).2.pending "r1" = none) ∧
    (approve "r1" ⟨[], []⟩ = ⟨[], []⟩) :=
  ⟨(claim_C4_approval_resolution ⟨[], []⟩ "r1"
      [AAction.approveAct "r1", AAction.rejectAct "r1"] rfl).1,
   (claim_C4_approval_resolution ⟨[], []⟩ "r1"
      [AAction.approveAct "r1", AAction.rejectAct "r1"] rfl).2.2.1.1,
   ((claim_C4_approval_resolution ⟨[], []⟩ "r1"
      [AAction.approveAct "r1", AAction.rejectAct "r1"] rfl).2.2.2.2
      ⟨[], []⟩ rfl).1⟩

/-- C9: in the streaming path, a call naming a configured sensitive
capability whose approval request is rejected or times out never reaches the
registry: the event sequence for the call is `tool_start`,
`approval_required`, `error`, `tool_end` (so `approval_required` precedes
any execution and `error` precedes `tool_end`), the synthetic failing
result's rendering `[ERROR] Ação rejeitada pelo usuário ou timeout.` becomes
the appended tool message's content, the effect trace shows only the
approval-gate interaction (no `execTool`), and the request's bookkeeping is
released. -/
theorem claim_C9_rejected_sensitive_call (env : AgentEnv) (tc : ToolCall)
    (mgr : Option SkillManager) (st : AgentState) (apr : ApprovalState)
    (ctr : Nat) (hname : tc.name ∈ sensitive_tools)
    (hres : env.approval_resolution (env.fresh_id ctr) ≠ .approvedRes) :
    (run_stream_dispatch env tc mgr st apr ctr).events =
      [.toolStartEv tc.name tc.arguments false,
       .approvalRequiredEv (env.fresh_id ctr) tc.name tc.arguments,
       .errorEv "Ação cancelada pelo usuário.",
       .toolEndEv tc.name false
         (str_take "[ERROR] Ação rejeitada pelo usuário ou timeout." 500)] ∧
    (run_stream_dispatch env tc mgr st apr ctr).state.messages =
      st.messages ++
        [.toolMsg tc.id tc.name "[ERROR] Ação rejeitada pelo usuário ou timeout."] ∧
    (run_stream_dispatch env tc mgr st apr ctr).effects =
      [.approvalCreate (env.fresh_id ctr),
       .approvalAwait (env.fresh_id ctr)
         (env.approval_resolution (env.fresh_id ctr))] ∧
    alist_get (run_stream_dispatch env tc mgr st apr ctr).approval.pending
      (env.fresh_id ctr) = none := by
  have hskill : str_starts_with tc.name "skill_" = false := by
    simp only [sensitive_tools, List.mem_cons, List.not_mem_nil, or_false]
      at hname
    rcases hname with h | h | h | h <;> rw [h] <;> decide
  have hobs : (ToolResult.mk false .pyNone
      (some "Ação rejeitada pelo usuário ou timeout.")).to_observation =
      "[ERROR] Ação rejeitada pelo usuário ou timeout." := rfl
  have hv := (visit_track_fields tc st).2.2.1
  cases hres2 : env.approval_resolution (env.fresh_id ctr) with
  | approvedRes => exact absurd hres2 hres
  | rejectedRes =>
    refine ⟨?_, ?_, ?_, ?_⟩ <;>
      simp [run_stream_dispatch, hskill, hname, hres2, wait_for_approval,
        reject, create_request, approval_cleanup, alist_get_set_self,
        alist_get_del_self, hobs, hv]
  | timeoutRes =>
    refine ⟨?_, ?_, ?_, ?_⟩ <;>
      simp [run_stream_dispatch, hskill, hname, hres2, wait_for_approval,
        reject, create_request, approval_cleanup, alist_get_set_self,
        alist_get_del_self, hobs, hv]

/-- A streaming environment used to witness C9: the model emits one
`delete_file` call, and the single approval request is rejected. -/
def rejectEnv : AgentEnv :=
  { provider := fun _ => {},
    provider_stream := fun _ => [],
    registry := { tools := [] },
    skill_manager := none,
    files := fun _ => none,
    fresh_id := fun n => "req" ++ toString n,
    approval_resolution := fun _ => .rejectedRes }

/-- The `delete_file` call of C9's scenario. -/
def deleteCall : ToolCall :=
  { id := "call_delete_file", name := "delete_file", arguments := [] }

/-- Witness for C9: the rejected `delete_file` call in a concrete
environment produces exactly the `tool_start`, `approval_required`,
`error`, `tool_end` sequence and the `[ERROR]`-tagged observation. -/
theorem claim_C9_rejected_sensitive_call_witness :
    (run_stream_dispatch rejectEnv deleteCall none
        { session_id := "default" } ⟨[], []⟩ 0).events =
      [.toolStartEv "delete_file" [] false,
       .approvalRequiredEv (rejectEnv.fresh_id 0) "delete_file" [],
       .errorEv "Ação cancelada pelo usuário.",
       .toolEndEv "delete_file" false
         (str_take "[ERROR] Ação rejeitada pelo usuário ou timeout." 500)] ∧
    (run_stream_dispatch rejectEnv deleteCall none
        { session_id := "default" } ⟨[], []⟩ 0).state.messages =
      [.toolMsg "call_delete_file" "delete_file"
        "[ERROR] Ação rejeitada pelo usuário ou timeout."] := by
  have h := claim_C9_rejected_sensitive_call rejectEnv deleteCall none
    { session_id := "default" } ⟨[], []⟩ 0 (by decide)
    (by intro hc; exact absurd hc (by decide))
  exact ⟨h.1, h.2.1⟩

/-- Whether an effect is a provider round trip. -/
def Effect.isProviderCall : Effect → Bool
  | .providerCall => true
  | _ => false

/-- The number of provider round trips in an effect trace. -/
def countProviderCalls (effs : List Effect) : Nat :=
  (effs.filter Effect.isProviderCall).length

/-- Counting provider calls distributes over concatenation. -/
theorem countProviderCalls_append (a b : List Effect) :
    countProviderCalls (a ++ b) = countProviderCalls a + countProviderCalls b := by
  simp [countProviderCalls, List.filter_append]

/-- A call dispatched by `Agent.run` produces a direct execution or a skill
activation — never an approval interaction, never a provider call. -/
theorem run_dispatch_one_effect (env : AgentEnv) (mgr : Option SkillManager)
    (tc : ToolCall) (st : AgentState) :
    (run_dispatch_one env mgr tc st).2.2.2.isApprovalEffect = false ∧
      (run_dispatch_one env mgr tc st).2.2.2.isProviderCall = false := by
  unfold run_dispatch_one
  split <;> simp [Effect.isApprovalEffect, Effect.isProviderCall]

/-- `Agent.run`'s dispatch loop adds no provider calls to the trace. -/
theorem run_dispatch_calls_provider_count (env : AgentEnv) :
    ∀ (calls : List ToolCall) (mgr : Option SkillManager) (st : AgentState)
      (acc : List ToolResultRec) (effs : List Effect),
      countProviderCalls (run_dispatch_calls env calls mgr st acc effs).effects =
        countProviderCalls effs := by
  intro calls
  induction calls with
  | nil => intro mgr st acc effs; simp [run_dispatch_calls]
  | cons tc rest ih =>
    intro mgr st acc effs
    simp only [run_dispatch_calls]
    rw [ih, countProviderCalls_append]
    have h := (run_dispatch_one_effect env mgr tc st).2
    simp [countProviderCalls, List.filter, h]

/-- Every effect `Agent.run`'s dispatch loop adds to the trace is
approval-free. -/
theorem run_dispatch_calls_no_approval (env : AgentEnv) :
    ∀ (calls : List ToolCall) (mgr : Option SkillManager) (st : AgentState)
      (acc : List ToolResultRec) (effs : List Effect),
      ∀ e ∈ (run_dispatch_calls env calls mgr st acc effs).effects,
        e ∈ effs ∨ e.isApprovalEffect = false := by
  intro calls
  induction calls with
  | nil =>
    intro mgr st acc effs e he
    simp only [run_dispatch_calls] at he
    exact Or.inl he
  | cons tc rest ih =>
    intro mgr st acc effs e he
    simp only [run_dispatch_calls] at he
    rcases ih _ _ _ _ e he with hmem | hfree
    · rcases List.mem_append.mp hmem with h1 | h2
      · exact Or.inl h1
      · right
        rw [List.mem_singleton.mp h2]
        exact (run_dispatch_one_effect env mgr tc st).1
    · exact Or.inr hfree

/-- Loop-level effect bound for `Agent.run`: starting `k` calls below the
limit, the trace gains at most `k + 1` provider calls, and every gained
effect is approval-free. -/
theorem run_loop_effects (env : AgentEnv) :
    ∀ (n : Nat) (mgr : Option SkillManager) (st : AgentState)
      (acc : List ToolResultRec) (parts : List String) (effs : List Effect),
      st.max_tool_calls - st.tool_call_count = n →
      countProviderCalls (run_loop env mgr st acc parts effs).effects ≤
          countProviderCalls effs + n + 1 ∧
        ∀ e ∈ (run_loop env mgr st acc parts effs).effects,
          e ∈ effs ∨ e.isApprovalEffect = false := by
  intro n
  induction n using Nat.strong_induction_on with
  | _ n ih =>
    intro mgr st acc parts effs hn
    by_cases h : st.tool_call_count < st.max_tool_calls
    · rw [run_loop]
      simp only [dif_pos h]
      split
      · constructor
        · rw [countProviderCalls_append]
          have h1 : countProviderCalls [Effect.providerCall] = 1 := rfl
          omega
        · intro e he
          rcases List.mem_append.mp he with h1 | h2
          · exact Or.inl h1
          · right
            rw [List.mem_singleton.mp h2]
            rfl
      · rename_i tc rest heq
        have hcnt := run_dispatch_calls_count env (tc :: rest) mgr
          { st with
            tool_call_count := st.tool_call_count + (tc :: rest).length,
            messages := st.messages ++
              [.assistant (env.provider st.messages).content (tc :: rest)] }
          acc (effs ++ [.providerCall])
        have hm : (run_dispatch_calls env (tc :: rest) mgr
            { st with
              tool_call_count := st.tool_call_count + (tc :: rest).length,
              messages := st.messages ++
                [.assistant (env.provider st.messages).content (tc :: rest)] }
            acc (effs ++ [.providerCall])).state.max_tool_calls -
            (run_dispatch_calls env (tc :: rest) mgr
            { st with
              tool_call_count := st.tool_call_count + (tc :: rest).length,
              messages := st.messages ++
                [.assistant (env.provider st.messages).content (tc :: rest)] }
            acc (effs ++ [.providerCall])).state.tool_call_count < n := by
          rw [hcnt.1, hcnt.2]
          simp only [List.length_cons]
          omega
        have hrec := ih _ hm
          (run_dispatch_calls env (tc :: rest) mgr
            { st with
              tool_call_count := st.tool_call_count + (tc :: rest).length,
              messages := st.messages ++
                [.assistant (env.provider st.messages).content (tc :: rest)] }
            acc (effs ++ [.providerCall])).skill_manager
          (run_dispatch_calls env (tc :: rest) mgr
            { st with
              tool_call_count := st.tool_call_count + (tc :: rest).length,
              messages := st.messages ++
                [.assistant (env.provider st.messages).content (tc :: rest)] }
            acc (effs ++ [.providerCall])).state
          (run_dispatch_calls env (tc :: rest) mgr
            { st with
              tool_call_count := st.tool_call_count + (tc :: rest).length,
              messages := st.messages ++
                [.assistant (env.provider st.messages).content (tc :: rest)] }
            acc (effs ++ [.providerCall])).results
          (if (env.provider st.messages).content ≠ "" then
            parts ++ [(env.provider st.messages).content] else parts)
          (run_dispatch_calls env (tc :: rest) mgr
            { st with
              tool_call_count := st.tool_call_count + (tc :: rest).length,
              messages := st.messages ++
                [.assistant (env.provider st.messages).content (tc :: rest)] }
            acc (effs ++ [.providerCall])).effects
          rfl
        have hpc := run_dispatch_calls_provider_count env (tc :: rest) mgr
          { st with
            tool_call_count := st.tool_call_count + (tc :: rest).length,
            messages := st.messages ++
              [.assistant (env.provider st.messages).content (tc :: rest)] }
          acc (effs ++ [.providerCall])
        constructor
        · have hb := hrec.1
          rw [hpc, countProviderCalls_append] at hb
          have h1 : countProviderCalls [Effect.providerCall] = 1 := rfl
          omega
        · intro e he
          rcases hrec.2 e he with hmem | hfree
          · rcases run_dispatch_calls_no_approval env (tc :: rest) mgr _ acc _
                e hmem with hmem2 | hfree2
            · rcases List.mem_append.mp hmem2 with h1 | h2
              · exact Or.inl h1
              · right
                rw [List.mem_singleton.mp h2]
                rfl
            · exact Or.inr hfree2
          · exact Or.inr hfree
    · rw [run_loop]
      simp only [dif_neg h]
      refine ⟨by omega, fun e he => Or.inl he⟩

/-- C1: starting from a fresh run state (`call_count = 0`) with limit `N`,
`Agent.run` terminates (it is a total function of the embedding) and its
trace contains at most `N + 1` provider calls: each iteration performs one
provider call and either ends the run or raises `call_count` by the number
of emitted calls (at least one), and the guard `call_count < call_limit`
stops further iterations. -/
theorem claim_C1_call_limit (env : AgentEnv) (message : String)
    (st : AgentState) (h0 : st.tool_call_count = 0) :
    countProviderCalls (Agent.run env message st).effects ≤
      st.max_tool_calls + 1 := by
  have h := run_loop_effects env st.max_tool_calls
    env.skill_manager { st with messages := st.messages ++ [.user message] }
    [] [] [] (by simp [h0])
  have h1 := h.1
  have h2 : countProviderCalls ([] : List Effect) = 0 := rfl
  rw [Agent.run]
  omega

/-- Witness for C1: a concrete run with the default limit 15 performs at
most 16 provider calls. -/
theorem claim_C1_call_limit_witness :
    countProviderCalls
      (Agent.run rejectEnv "hi" { session_id := "default" }).effects ≤
        15 + 1 :=
  claim_C1_call_limit rejectEnv "hi" { session_id := "default" } rfl

/-- A trace without approval effects leaves the approval gate untouched. -/
theorem apply_approval_effects_of_free :
    ∀ (effs : List Effect), (∀ e ∈ effs, e.isApprovalEffect = false) →
      ∀ s : ApprovalState, apply_approval_effects s effs = s := by
  intro effs
  induction effs with
  | nil => intro _ s; rfl
  | cons e rest ih =>
    intro h s
    have he := h e (List.mem_cons_self e rest)
    have hrest : ∀ e' ∈ rest, e'.isApprovalEffect = false :=
      fun e' h' => h e' (List.mem_cons_of_mem e h')
    cases e with
    | providerCall => exact ih hrest s
    | execTool n a => exact ih hrest s
    | skillActivate sl => exact ih hrest s
    | approvalCreate i => simp [Effect.isApprovalEffect] at he
    | approvalAwait i r => simp [Effect.isApprovalEffect] at he

/-- C6: the batched path `Agent.run` never consults the approval gate — its
effect trace contains no approval interaction, so replaying the run onto any
gate state leaves that state unchanged — and a call naming a sensitive
capability is dispatched directly through the registry, exactly like any
other call. -/
theorem claim_C6_run_no_approval_gate (env : AgentEnv) (message : String)
    (st : AgentState) :
    (∀ e ∈ (Agent.run env message st).effects, e.isApprovalEffect = false) ∧
    (∀ apr : ApprovalState,
      apply_approval_effects apr (Agent.run env message st).effects = apr) ∧
    (∀ (tc : ToolCall) (mgr : Option SkillManager) (st2 : AgentState),
      tc.name ∈ sensitive_tools →
      run_dispatch_one env mgr tc st2 =
        (env.registry.execute tc.name tc.arguments, mgr, visit_track tc st2,
          .execTool tc.name tc.arguments)) := by
  have hfree : ∀ e ∈ (Agent.run env message st).effects,
      e.isApprovalEffect = false := by
    intro e he
    rw [Agent.run] at he
    rcases (run_loop_effects env _ env.skill_manager
        { st with messages := st.messages ++ [.user message] } [] [] []
        rfl).2 e he with h1 | h2
    · simp at h1
    · exact h2
  refine ⟨hfree, fun apr => apply_approval_effects_of_free _ hfree apr, ?_⟩
  intro tc mgr st2 hname
  have hskill : str_starts_with tc.name "skill_" = false := by
    simp only [sensitive_tools, List.mem_cons, List.not_mem_nil, or_false]
      at hname
    rcases hname with hh | hh | hh | hh <;> rw [hh] <;> decide
  simp [run_dispatch_one, hskill]

/-- Witness for C6 at a concrete run and a concrete sensitive call: the
single `providerCall` effect of the run is approval-free, replaying the run
leaves the empty gate state unchanged, and `delete_file` dispatches directly
through the registry. -/
theorem claim_C6_run_no_approval_gate_witness :
    Effect.isApprovalEffect .providerCall = false ∧
    apply_approval_effects ⟨[], []⟩
      (Agent.run rejectEnv "hi" { session_id := "default" }).effects =
        ⟨[], []⟩ ∧
    run_dispatch_one rejectEnv none deleteCall { session_id := "default" } =
      (rejectEnv.registry.execute "delete_file" [], none,
        visit_track deleteCall { session_id := "default" },
        .execTool "delete_file" []) := by
  have h := claim_C6_run_no_approval_gate rejectEnv "hi" { session_id := "default" }
  refine ⟨?_, h.2.1 ⟨[], []⟩, ?_⟩
  · apply h.1
    have hrun : (Agent.run rejectEnv "hi" { session_id := "default" }).effects =
        [.providerCall] := by
      simp [Agent.run, run_loop, rejectEnv]
    rw [hrun]
    exact List.mem_cons_self _ _
  · exact h.2.2 deleteCall none { session_id := "default" } (by decide)

/-- Checks causal ordering of a message trace: scanning left to right, an
assistant message with calls must be followed immediately by one tool
message per call, matching the calls' ids and names in emission order,
before anything else appears; the first argument is the list of calls still
awaiting their observation. -/
def causalFrom : List ToolCall → List Msg → Bool
  | [], [] => true
  | [], .user _ :: rest => causalFrom [] rest
  | [], .assistant _ calls :: rest => causalFrom calls rest
  | [], .toolMsg _ _ _ :: _ => false
  | _ :: _, [] => false
  | c :: cs, .toolMsg i nm _ :: rest =>
      i == c.id && nm == c.name && causalFrom cs rest
  | _ :: _, .user _ :: _ => false
  | _ :: _, .assistant _ _ :: _ => false

/-- Causal ordering of a whole trace (no observation pending initially). -/
def causalTrace (msgs : List Msg) : Bool :=
  causalFrom [] msgs

/-- The observation message answering a capability call. -/
def mkObsMsg (c : ToolCall) (o : String) : Msg :=
  .toolMsg c.id c.name o

/-- Total number of capability calls carried by the assistant messages of a
trace. -/
def assistant_call_sum (msgs : List Msg) : Nat :=
  (msgs.map (fun m =>
    match m with
    | .assistant _ calls => calls.length
    | _ => 0)).sum

/-- `assistant_call_sum` distributes over concatenation. -/
theorem assistant_call_sum_append (a b : List Msg) :
    assistant_call_sum (a ++ b) = assistant_call_sum a + assistant_call_sum b := by
  simp [assistant_call_sum]

/-- Observation messages carry no calls. -/
theorem assistant_call_sum_zip (calls : List ToolCall) :
    ∀ obs : List String,
      assistant_call_sum (List.zipWith mkObsMsg calls obs) = 0 := by
  induction calls with
  | nil => intro obs; rfl
  | cons c cs ih =>
    intro obs
    cases obs with
    | nil => rfl
    | cons o os => simp [mkObsMsg, assistant_call_sum] at ih ⊢; exact ih os

/-- Consuming the observations of the pending calls restores the
no-pending-call scanning state. -/
theorem causalFrom_zip (calls : List ToolCall) :
    ∀ (obs : List String) (tail : List Msg), obs.length = calls.length →
      causalFrom calls (List.zipWith mkObsMsg calls obs ++ tail) =
        causalFrom [] tail := by
  induction calls with
  | nil => intro obs tail _; simp
  | cons c cs ih =>
    intro obs tail h
    cases obs with
    | nil => simp at h
    | cons o os =>
      simp only [List.zipWith_cons_cons, mkObsMsg, List.cons_append, causalFrom]
      simp only [List.length_cons, Nat.add_right_cancel_iff] at h
      simp [ih os tail h]

/-- `Agent.run`'s dispatch loop appends exactly one observation message per
call, matching the calls' ids and names in order. -/
theorem run_dispatch_calls_messages (env : AgentEnv) :
    ∀ (calls : List ToolCall) (mgr : Option SkillManager) (st : AgentState)
      (acc : List ToolResultRec) (effs : List Effect),
      ∃ obs : List String, obs.length = calls.length ∧
        (run_dispatch_calls env calls mgr st acc effs).state.messages =
          st.messages ++ List.zipWith mkObsMsg calls obs := by
  intro calls
  induction calls with
  | nil =>
    intro mgr st acc effs
    exact ⟨[], rfl, by simp [run_dispatch_calls]⟩
  | cons tc rest ih =>
    intro mgr st acc effs
    simp only [run_dispatch_calls]
    obtain ⟨obs, hlen, hmsg⟩ := ih (run_dispatch_one env mgr tc st).2.1
      { (run_dispatch_one env mgr tc st).2.2.1 with
        messages := (run_dispatch_one env mgr tc st).2.2.1.messages ++
          [.toolMsg tc.id tc.name
            (run_dispatch_one env mgr tc st).1.to_observation] }
      (acc ++
        [({ tool_name := tc.name,
            tool_call_id := tc.id,
            success := (run_dispatch_one env mgr tc st).1.success,
            result := (run_dispatch_one env mgr tc st).1.to_observation } :
              ToolResultRec)])
      (effs ++ [(run_dispatch_one env mgr tc st).2.2.2])
    refine ⟨(run_dispatch_one env mgr tc st).1.to_observation :: obs,
      by simp [hlen], ?_⟩
    rw [hmsg]
    have hm := (run_dispatch_one_fields env mgr tc st).2.2
    simp [mkObsMsg, hm]

/-- Loop-level trace lemma for `Agent.run`: the loop only appends messages,
the counter grows by exactly the total number of calls carried by the
appended assistant messages, and the appended segment is causally ordered
(each assistant message's calls are answered immediately, in order). -/
theorem run_loop_trace (env : AgentEnv) :
    ∀ (n : Nat) (mgr : Option SkillManager) (st : AgentState)
      (acc : List ToolResultRec) (parts : List String) (effs : List Effect),
      st.max_tool_calls - st.tool_call_count = n →
      ∃ app : List Msg,
        (run_loop env mgr st acc parts effs).state.messages =
          st.messages ++ app ∧
        (run_loop env mgr st acc parts effs).state.tool_call_count =
          st.tool_call_count + assistant_call_sum app ∧
        causalFrom [] app = true := by
  intro n
  induction n using Nat.strong_induction_on with
  | _ n ih =>
    intro mgr st acc parts effs hn
    by_cases h : st.tool_call_count < st.max_tool_calls
    · rw [run_loop]
      simp only [dif_pos h]
      split
      · refine ⟨[.assistant (env.provider st.messages).content []], rfl, ?_, rfl⟩
        simp [assistant_call_sum]
      · rename_i tc rest heq
        obtain ⟨obs, hlen, hmsg⟩ := run_dispatch_calls_messages env (tc :: rest)
          mgr
          { st with
            tool_call_count := st.tool_call_count + (tc :: rest).length,
            messages := st.messages ++
              [.assistant (env.provider st.messages).content (tc :: rest)] }
          acc (effs ++ [.providerCall])
        have hcnt := run_dispatch_calls_count env (tc :: rest) mgr
          { st with
            tool_call_count := st.tool_call_count + (tc :: rest).length,
            messages := st.messages ++
              [.assistant (env.provider st.messages).content (tc :: rest)] }
          acc (effs ++ [.providerCall])
        have hm : (run_dispatch_calls env (tc :: rest) mgr
            { st with
              tool_call_count := st.tool_call_count + (tc :: rest).length,
              messages := st.messages ++
                [.assistant (env.provider st.messages).content (tc :: rest)] }
            acc (effs ++ [.providerCall])).state.max_tool_calls -
            (run_dispatch_calls env (tc :: rest) mgr
            { st with
              tool_call_count := st.tool_call_count + (tc :: rest).length,
              messages := st.messages ++
                [.assistant (env.provider st.messages).content (tc :: rest)] }
            acc (effs ++ [.providerCall])).state.tool_call_count < n := by
          rw [hcnt.1, hcnt.2]
          simp only [List.length_cons]
          omega
        obtain ⟨app2, happmsg, happcnt, happcausal⟩ := ih _ hm
          (run_dispatch_calls env (tc :: rest) mgr
            { st with
              tool_call_count := st.tool_call_count + (tc :: rest).length,
              messages := st.messages ++
                [.assistant (env.provider st.messages).content (tc :: rest)] }
            acc (effs ++ [.providerCall])).skill_manager
          (run_dispatch_calls env (tc :: rest) mgr
            { st with
              tool_call_count := st.tool_call_count + (tc :: rest).length,
              messages := st.messages ++
                [.assistant (env.provider st.messages).content (tc :: rest)] }
            acc (effs ++ [.providerCall])).state
          (run_dispatch_calls env (tc :: rest) mgr
            { st with
              tool_call_count := st.tool_call_count + (tc :: rest).length,
              messages := st.messages ++
                [.assistant (env.provider st.messages).content (tc :: rest)] }
            acc (effs ++ [.providerCall])).results
          (if (env.provider st.messages).content ≠ "" then
            parts ++ [(env.provider st.messages).content] else parts)
          (run_dispatch_calls env (tc :: rest) mgr
            { st with
              tool_call_count := st.tool_call_count + (tc :: rest).length,
              messages := st.messages ++
                [.assistant (env.provider st.messages).content (tc :: rest)] }
            acc (effs ++ [.providerCall])).effects
          rfl
        refine ⟨.assistant (env.provider st.messages).content (tc :: rest) ::
          (List.zipWith mkObsMsg (tc :: rest) obs ++ app2), ?_, ?_, ?_⟩
        · rw [happmsg, hmsg]
          simp
        · rw [happcnt, hcnt.1]
          have hsum : assistant_call_sum
              (Msg.assistant (env.provider st.messages).content (tc :: rest) ::
                (List.zipWith mkObsMsg (tc :: rest) obs ++ app2)) =
              (tc :: rest).length + assistant_call_sum app2 := by
            have hzip := assistant_call_sum_zip (tc :: rest) obs
            simp [assistant_call_sum] at hzip ⊢
            simp [hzip]
          rw [hsum]
          simp only [List.length_cons]
          omega
        · have hstep : causalFrom []
              (Msg.assistant (env.provider st.messages).content (tc :: rest) ::
                (List.zipWith mkObsMsg (tc :: rest) obs ++ app2)) =
              causalFrom (tc :: rest)
                (List.zipWith mkObsMsg (tc :: rest) obs ++ app2) := rfl
          rw [hstep, causalFrom_zip (tc :: rest) obs app2 hlen, happcausal]
    · rw [run_loop]
      simp only [dif_neg h]
      exact ⟨[], by simp, by simp [assistant_call_sum], rfl⟩

/-- Streaming dispatch of one call appends exactly one observation message,
answering that call's id and name. -/
theorem run_stream_dispatch_messages (env : AgentEnv) (tc : ToolCall)
    (mgr : Option SkillManager) (st : AgentState) (apr : ApprovalState)
    (ctr : Nat) :
    ∃ o : String, (run_stream_dispatch env tc mgr st apr ctr).state.messages =
      st.messages ++ [.toolMsg tc.id tc.name o] := by
  have hv1 := (visit_track_fields tc
    (handle_skill_activation env.files mgr tc st).2.2).2.2.1
  have hh := (handle_skill_activation_fields env.files mgr tc st).2.2
  have hv2 := (visit_track_fields tc st).2.2.1
  by_cases hs : str_starts_with tc.name "skill_" = true
  · exact ⟨(handle_skill_activation env.files mgr tc st).1.to_observation,
      by simp [run_stream_dispatch, hs, hv1, hh]⟩
  · by_cases hm : tc.name ∈ sensitive_tools
    · cases hres2 : env.approval_resolution (env.fresh_id ctr) with
      | approvedRes =>
        exact ⟨(env.registry.execute tc.name tc.arguments).to_observation,
          by simp [run_stream_dispatch, hs, hm, hres2, wait_for_approval,
            approve, create_request, alist_get_set_self, hv2]⟩
      | rejectedRes =>
        exact ⟨(ToolResult.mk false .pyNone
            (some "Ação rejeitada pelo usuário ou timeout.")).to_observation,
          by simp [run_stream_dispatch, hs, hm, hres2, wait_for_approval,
            reject, create_request, alist_get_set_self, hv2]⟩
      | timeoutRes =>
        exact ⟨(ToolResult.mk false .pyNone
            (some "Ação rejeitada pelo usuário ou timeout.")).to_observation,
          by simp [run_stream_dispatch, hs, hm, hres2, wait_for_approval,
            create_request, alist_get_set_self, hv2]⟩
    · exact ⟨(env.registry.execute tc.name tc.arguments).to_observation,
        by simp [run_stream_dispatch, hs, hm, hv2]⟩

/-- The streaming dispatch loop appends exactly one observation message per
call, matching the calls' ids and names in order. -/
theorem run_stream_dispatch_calls_messages (env : AgentEnv) :
    ∀ (calls : List ToolCall) (mgr : Option SkillManager) (st : AgentState)
      (apr : ApprovalState) (ctr : Nat) (evs : List Event) (effs : List Effect),
      ∃ obs : List String, obs.length = calls.length ∧
        (run_stream_dispatch_calls env calls mgr st apr ctr evs effs).state.messages =
          st.messages ++ List.zipWith mkObsMsg calls obs := by
  intro calls
  induction calls with
  | nil =>
    intro mgr st apr ctr evs effs
    exact ⟨[], rfl, by simp [run_stream_dispatch_calls]⟩
  | cons tc rest ih =>
    intro mgr st apr ctr evs effs
    simp only [run_stream_dispatch_calls]
    obtain ⟨o, ho⟩ := run_stream_dispatch_messages env tc mgr st apr ctr
    obtain ⟨obs, hlen, hmsg⟩ := ih
      (run_stream_dispatch env tc mgr st apr ctr).skill_manager
      (run_stream_dispatch env tc mgr st apr ctr).state
      (run_stream_dispatch env tc mgr st apr ctr).approval
      (run_stream_dispatch env tc mgr st apr ctr).counter
      (evs ++ (run_stream_dispatch env tc mgr st apr ctr).events)
      (effs ++ (run_stream_dispatch env tc mgr st apr ctr).effects)
    refine ⟨o :: obs, by simp [hlen], ?_⟩
    rw [hmsg, ho]
    simp [mkObsMsg]

/-- Loop-level trace lemma for `Agent.run_stream`, matching
`run_loop_trace`. -/
theorem run_stream_loop_trace (env : AgentEnv) :
    ∀ (n : Nat) (mgr : Option SkillManager) (st : AgentState)
      (apr : ApprovalState) (ctr : Nat) (evs : List Event) (effs : List Effect),
      st.max_tool_calls - st.tool_call_count = n →
      ∃ app : List Msg,
        (run_stream_loop env mgr st apr ctr evs effs).state.messages =
          st.messages ++ app ∧
        (run_stream_loop env mgr st apr ctr evs effs).state.tool_call_count =
          st.tool_call_count + assistant_call_sum app ∧
        causalFrom [] app = true := by
  intro n
  induction n using Nat.strong_induction_on with
  | _ n ih =>
    intro mgr st apr ctr evs effs hn
    by_cases h : st.tool_call_count < st.max_tool_calls
    · rw [run_stream_loop]
      simp only [dif_pos h]
      split
      · refine ⟨[.assistant
          (aggregate_chunks (env.provider_stream st.messages)).content []],
          rfl, ?_, rfl⟩
        simp [assistant_call_sum]
      · rename_i tc rest heq
        obtain ⟨obs, hlen, hmsg⟩ := run_stream_dispatch_calls_messages env
          (tc :: rest) mgr
          { st with
            tool_call_count := st.tool_call_count + (tc :: rest).length,
            messages := st.messages ++
              [.assistant (aggregate_chunks (env.provider_stream st.messages)).content
                (tc :: rest)] }
          apr ctr (evs ++ chunk_content_events (env.provider_stream st.messages))
          (effs ++ [.providerCall])
        have hcnt := run_stream_dispatch_calls_count env (tc :: rest) mgr
          { st with
            tool_call_count := st.tool_call_count + (tc :: rest).length,
            messages := st.messages ++
              [.assistant (aggregate_chunks (env.provider_stream st.messages)).content
                (tc :: rest)] }
          apr ctr (evs ++ chunk_content_events (env.provider_stream st.messages))
          (effs ++ [.providerCall])
        have hm : (run_stream_dispatch_calls env (tc :: rest) mgr
            { st with
              tool_call_count := st.tool_call_count + (tc :: rest).length,
              messages := st.messages ++
                [.assistant (aggregate_chunks (env.provider_stream st.messages)).content
                  (tc :: rest)] }
            apr ctr (evs ++ chunk_content_events (env.provider_stream st.messages))
            (effs ++ [.providerCall])).state.max_tool_calls -
            (run_stream_dispatch_calls env (tc :: rest) mgr
            { st with
              tool_call_count := st.tool_call_count + (tc :: rest).length,
              messages := st.messages ++
                [.assistant (aggregate_chunks (env.provider_stream st.messages)).content
                  (tc :: rest)] }
            apr ctr (evs ++ chunk_content_events (env.provider_stream st.messages))
            (effs ++ [.providerCall])).state.tool_call_count < n := by
          rw [hcnt.1, hcnt.2]
          simp only [List.length_cons]
          omega
        obtain ⟨app2, happmsg, happcnt, happcausal⟩ := ih _ hm
          (run_stream_dispatch_calls env (tc :: rest) mgr
            { st with
              tool_call_count := st.tool_call_count + (tc :: rest).length,
              messages := st.messages ++
                [.assistant (aggregate_chunks (env.provider_stream st.messages)).content
                  (tc :: rest)] }
            apr ctr (evs ++ chunk_content_events (env.provider_stream st.messages))
            (effs ++ [.providerCall])).skill_manager
          (run_stream_dispatch_calls env (tc :: rest) mgr
            { st with
              tool_call_count := st.tool_call_count + (tc :: rest).length,
              messages := st.messages ++
                [.assistant (aggregate_chunks (env.provider_stream st.messages)).content
                  (tc :: rest)] }
            apr ctr (evs ++ chunk_content_events (env.provider_stream st.messages))
            (effs ++ [.providerCall])).state
          (run_stream_dispatch_calls env (tc :: rest) mgr
            { st with
              tool_call_count := st.tool_call_count + (tc :: rest).length,
              messages := st.messages ++
                [.assistant (aggregate_chunks (env.provider_stream st.messages)).content
                  (tc :: rest)] }
            apr ctr (evs ++ chunk_content_events (env.provider_stream st.messages))
            (effs ++ [.providerCall])).approval
          (run_stream_dispatch_calls env (tc :: rest) mgr
            { st with
              tool_call_count := st.tool_call_count + (tc :: rest).length,
              messages := st.messages ++
                [.assistant (aggregate_chunks (env.provider_stream st.messages)).content
                  (tc :: rest)] }
            apr ctr (evs ++ chunk_content_events (env.provider_stream st.messages))
            (effs ++ [.providerCall])).counter
          (run_stream_dispatch_calls env (tc :: rest) mgr
            { st with
              tool_call_count := st.tool_call_count + (tc :: rest).length,
              messages := st.messages ++
                [.assistant (aggregate_chunks (env.provider_stream st.messages)).content
                  (tc :: rest)] }
            apr ctr (evs ++ chunk_content_events (env.provider_stream st.messages))
            (effs ++ [.providerCall])).events
          (run_stream_dispatch_calls env (tc :: rest) mgr
            { st with
              tool_call_count := st.tool_call_count + (tc :: rest).length,
              messages := st.messages ++
                [.assistant (aggregate_chunks (env.provider_stream st.messages)).content
                  (tc :: rest)] }
            apr ctr (evs ++ chunk_content_events (env.provider_stream st.messages))
            (effs ++ [.providerCall])).effects
          rfl
        refine ⟨.assistant
          (aggregate_chunks (env.provider_stream st.messages)).content (tc :: rest) ::
          (List.zipWith mkObsMsg (tc :: rest) obs ++ app2), ?_, ?_, ?_⟩
        · rw [happmsg, hmsg]
          simp
        · rw [happcnt, hcnt.1]
          have hsum : assistant_call_sum
              (Msg.assistant
                (aggregate_chunks (env.provider_stream st.messages)).content
                (tc :: rest) ::
                (List.zipWith mkObsMsg (tc :: rest) obs ++ app2)) =
              (tc :: rest).length + assistant_call_sum app2 := by
            have hzip := assistant_call_sum_zip (tc :: rest) obs
            simp [assistant_call_sum] at hzip ⊢
            simp [hzip]
          rw [hsum]
          simp only [List.length_cons]
          omega
        · have hstep : causalFrom []
              (Msg.assistant
                (aggregate_chunks (env.provider_stream st.messages)).content
                (tc :: rest) ::
                (List.zipWith mkObsMsg (tc :: rest) obs ++ app2)) =
              causalFrom (tc :: rest)
                (List.zipWith mkObsMsg (tc :: rest) obs ++ app2) := rfl
          rw [hstep, causalFrom_zip (tc :: rest) obs app2 hlen, happcausal]
    · rw [run_stream_loop]
      simp only [dif_neg h]
      exact ⟨[], by simp, by simp [assistant_call_sum], rfl⟩

/-- C8: starting from a fresh run state, the final `call_count` of both
`Agent.run` and `Agent.run_stream` (for `DONE` and `LIMIT_REACHED` alike)
equals the sum over all assistant messages appended during the run of the
number of capability calls each one carries (the terminal assistant message
carrying zero). -/
theorem claim_C8_call_count_sum (env : AgentEnv) (message : String)
    (st : AgentState) (apr : ApprovalState) (h0 : st.tool_call_count = 0) :
    (∃ app : List Msg,
      (Agent.run env message st).state.messages =
        (st.messages ++ [.user message]) ++ app ∧
      (Agent.run env message st).state.tool_call_count =
        assistant_call_sum app) ∧
    (∃ app : List Msg,
      (Agent.run_stream env message st apr).state.messages =
        (st.messages ++ [.user message]) ++ app ∧
      (Agent.run_stream env message st apr).state.tool_call_count =
        assistant_call_sum app) := by
  constructor
  · obtain ⟨app, hmsg, hcnt, _⟩ := run_loop_trace env _ env.skill_manager
      { st with messages := st.messages ++ [.user message] } [] [] [] rfl
    refine ⟨app, ?_, ?_⟩
    · rw [Agent.run, hmsg]
    · rw [Agent.run, hcnt]
      simp [h0]
  · obtain ⟨app, hmsg, hcnt, _⟩ := run_stream_loop_trace env _ env.skill_manager
      { st with messages := st.messages ++ [.user message] } apr 0 [] [] rfl
    refine ⟨app, ?_, ?_⟩
    · rw [Agent.run_stream, hmsg]
    · rw [Agent.run_stream, hcnt]
      simp [h0]

/-- Witness for C8 at a concrete environment and fresh state. -/
theorem claim_C8_call_count_sum_witness :
    (∃ app : List Msg,
      (Agent.run rejectEnv "hi" { session_id := "default" }).state.messages =
        (([] : List Msg) ++ [.user "hi"]) ++ app ∧
      (Agent.run rejectEnv "hi"
        { session_id := "default" }).state.tool_call_count =
          assistant_call_sum app) ∧
    (∃ app : List Msg,
      (Agent.run_stream rejectEnv "hi" { session_id := "default" }
        ⟨[], []⟩).state.messages = (([] : List Msg) ++ [.user "hi"]) ++ app ∧
      (Agent.run_stream rejectEnv "hi" { session_id := "default" }
        ⟨[], []⟩).state.tool_call_count = assistant_call_sum app) :=
  claim_C8_call_count_sum rejectEnv "hi" { session_id := "default" } ⟨[], []⟩ rfl

/-- C3: both `Agent.run` and `Agent.run_stream` only ever append to the
conversation, and the appended segment is causally ordered: every assistant
message carrying calls is followed immediately by one observation message
per call — matching the calls' ids and names in exactly the order the model
emitted them — before any further assistant message appears. -/
theorem claim_C3_causal_order (env : AgentEnv) (message : String)
    (st : AgentState) (apr : ApprovalState) :
    (∃ app : List Msg,
      (Agent.run env message st).state.messages = st.messages ++ app ∧
      causalTrace app = true) ∧
    (∃ app : List Msg,
      (Agent.run_stream env message st apr).state.messages =
        st.messages ++ app ∧
      causalTrace app = true) := by
  constructor
  · obtain ⟨app, hmsg, _, hcausal⟩ := run_loop_trace env _ env.skill_manager
      { st with messages := st.messages ++ [.user message] } [] [] [] rfl
    refine ⟨.user message :: app, ?_, ?_⟩
    · rw [Agent.run, hmsg]
      simp
    · show causalFrom [] (.user message :: app) = true
      rw [show causalFrom [] (.user message :: app) = causalFrom [] app from rfl]
      exact hcausal
  · obtain ⟨app, hmsg, _, hcausal⟩ := run_stream_loop_trace env _
      env.skill_manager { st with messages := st.messages ++ [.user message] }
      apr 0 [] [] rfl
    refine ⟨.user message :: app, ?_, ?_⟩
    · rw [Agent.run_stream, hmsg]
      simp
    · show causalFrom [] (.user message :: app) = true
      rw [show causalFrom [] (.user message :: app) = causalFrom [] app from rfl]
      exact hcausal
